import Mathlib

/-!
Verification development for the wellenbrecher Pixelflut server.

The definitions below are shallow embeddings of the Rust sources:
  - `wellenbrecher-canvas/src/lib.rs` (Bgra, Canvas),
  - `wellenbrecher/src/ring/command_ring.rs` (streaming parser, ring buffer),
  - `wellenbrecher/src/ring/command.rs` (command execution),
  - `pfparse/src/lib.rs` (naive reference parser),
  - `wellenbrecher/src/ring/ring_coordination.rs` (user state).
Machine integers (u8/u32) are modelled as `Nat` with explicit `% 2 ^ 32`
where u32 arithmetic may wrap.
-/

namespace Wellenbrecher

set_option maxRecDepth 8000

/-- Sentinel INVALID_HEX_DIGIT from command_ring.rs (0xffff). -/
def INVALID_HEX_DIGIT : Nat := 0xffff

/-- Embedding of the 256-entry HEX_LOOKUP table built by hex_lookup():
bytes b'0'..b'9' map to 0..9, b'a'..b'f' to 10..15, b'A'..b'F' to 10..15,
everything else to INVALID_HEX_DIGIT. -/
def hexLookup (b : Nat) : Nat :=
  if 48 ≤ b ∧ b ≤ 57 then b - 48
  else if 97 ≤ b ∧ b ≤ 102 then b - 87
  else if 65 ≤ b ∧ b ≤ 70 then b - 55
  else INVALID_HEX_DIGIT

/-- Pixel in BGRA byte order, from wellenbrecher-canvas (struct Bgra). -/
structure Bgra where
  b : Nat
  g : Nat
  r : Nat
  a : Nat
deriving DecidableEq

/-- From<u32> for Bgra: b is the top byte, a the bottom byte. -/
def Bgra.fromU32 (v : Nat) : Bgra :=
  { b := v / 2 ^ 24 % 256, g := v / 2 ^ 16 % 256, r := v / 2 ^ 8 % 256, a := v % 256 }

/-- From<Bgra> for u32: (b << 24) | (g << 16) | (r << 8) | a. -/
def u32OfBgra (c : Bgra) : Nat :=
  c.b * 2 ^ 24 + c.g * 2 ^ 16 + c.r * 2 ^ 8 + c.a

/-- Bgra::from_rgba: r is the top byte of the u32, a the bottom byte. -/
def Bgra.fromRgba (v : Nat) : Bgra :=
  { r := v / 2 ^ 24 % 256, g := v / 2 ^ 16 % 256, b := v / 2 ^ 8 % 256, a := v % 256 }

/-- Bgra::from_argb: a is the top byte of the u32, b the bottom byte. -/
def Bgra.fromArgb (v : Nat) : Bgra :=
  { a := v / 2 ^ 24 % 256, r := v / 2 ^ 16 % 256, g := v / 2 ^ 8 % 256, b := v % 256 }

/-- Bgra::from_bw: grayscale byte replicated, alpha 0xff. -/
def Bgra.fromBw (w : Nat) : Bgra := { r := w, g := w, b := w, a := 255 }

/-- Bgra::from_rgb: 24-bit RGB, alpha 0xff. -/
def Bgra.fromRgb (v : Nat) : Bgra :=
  { r := v / 2 ^ 16 % 256, g := v / 2 ^ 8 % 256, b := v % 256, a := 255 }

/-- Bgra::rgb: (r << 16) | (g << 8) | b. -/
def Bgra.rgb (c : Bgra) : Nat := c.r * 2 ^ 16 + c.g * 2 ^ 8 + c.b

/-- Command variants produced by the streaming parser (ring/command_ring.rs);
pfparse::Command has the same five variants. -/
inductive Command where
  | help
  | size
  | setPixel (x y : Nat) (color : Bgra)
  | getPixel (x y : Nat)
  | offset (x y : Nat)
deriving DecidableEq

/-- CommandRingError from ring/command_ring.rs; the offending byte is kept
as its byte value rather than a char. -/
inductive CommandRingError where
  | moreDataRequired
  | invalidDecimalDigit (c : Nat)
  | invalidHexadecimalDigit (c : Nat)
  | invalidColor
  | unknownVerb
deriving DecidableEq

/-! List-level embedding of the streaming parser.  The byte list stands for
the unconsumed readable region of the command ring, in read order; the
pointer mechanics of the ring itself are modelled separately below. -/

/-- Body of the impl_consume_decimal_u32_until! macro: read bytes until one
of the terminator bytes, folding digits via HEX_LOOKUP as
`value * 10 + digit` in u32 arithmetic.  The leading available==0 check of
the source coincides with the empty-list case. -/
def consumeDecimalU32Until (terms : List Nat) : Nat → List Nat →
    Except CommandRingError ((Nat × Nat) × List Nat)
  | _, [] => .error .moreDataRequired
  | value, digit :: rest =>
    if digit ∈ terms then .ok ((value, digit), rest)
    else if hexLookup digit = INVALID_HEX_DIGIT then .error (.invalidDecimalDigit digit)
    else consumeDecimalU32Until terms ((value * 10 + hexLookup digit) % 2 ^ 32) rest

/-- CommandRing::consume_whitespace: skip b' ' bytes; running out of data
while skipping is MoreDataRequired. -/
def consumeWhitespace : List Nat → Except CommandRingError (List Nat)
  | [] => .error .moreDataRequired
  | b :: rest => if b = 32 then consumeWhitespace rest else .ok (b :: rest)

/-- CommandRing::consume_compare: with at least |verb| bytes available,
advance past the verb iff the next |verb| bytes equal it; with fewer bytes
available report MoreDataRequired. -/
def consumeCompare (verb : List Nat) (bs : List Nat) :
    Except CommandRingError (Bool × List Nat) :=
  if verb.length ≤ bs.length then
    if bs.take verb.length = verb then .ok (true, bs.drop verb.length)
    else .ok (false, bs)
  else .error .moreDataRequired

/-- Loop body of consume_hexadecimal_color_until_new_line: `for len in 0..9`;
falling out of the loop after nine hex digits is InvalidColor. -/
def consumeHexLoop (len value : Nat) : List Nat → Except CommandRingError (Bgra × List Nat)
  | [] => if 9 ≤ len then .error .invalidColor else .error .moreDataRequired
  | chr :: rest =>
    if 9 ≤ len then .error .invalidColor
    else if chr = 10 then
      match len with
      | 6 => .ok (Bgra.fromRgb value, rest)
      | 2 => .ok (Bgra.fromBw (value % 256), rest)
      | 8 => .ok (Bgra.fromRgba value, rest)
      | _ => .error .invalidColor
    else if hexLookup chr = INVALID_HEX_DIGIT then .error (.invalidHexadecimalDigit chr)
    else consumeHexLoop (len + 1) ((value * 16 + hexLookup chr) % 2 ^ 32) rest

/-- CommandRing::consume_hexadecimal_color_until_new_line. -/
def consumeHexadecimalColorUntilNewLine (bs : List Nat) :
    Except CommandRingError (Bgra × List Nat) :=
  match bs with
  | [] => .error .moreDataRequired
  | _ => consumeHexLoop 0 0 bs

/-- PX_VERB as bytes. -/
def PX_VERB : List Nat := [80, 88]

/-- SIZE_VERB ("SIZE\n") as bytes. -/
def SIZE_VERB : List Nat := [83, 73, 90, 69, 10]

/-- HELP_VERB ("HELP\n") as bytes. -/
def HELP_VERB : List Nat := [72, 69, 76, 80, 10]

/-- OFFSET_VERB as bytes. -/
def OFFSET_VERB : List Nat := [79, 70, 70, 83, 69, 84]

/-- CommandRing::read_next_command_inner: try PX, SIZE\n, HELP\n, OFFSET in
that order; a failed consume_compare leaves the bytes unconsumed. -/
def readNextCommandInner (bs : List Nat) : Except CommandRingError (Command × List Nat) :=
  match consumeCompare PX_VERB bs with
  | .error e => .error e
  | .ok (true, bs1) =>
    match consumeWhitespace bs1 with
    | .error e => .error e
    | .ok bs2 =>
      match consumeDecimalU32Until [32] 0 bs2 with
      | .error e => .error e
      | .ok ((x, _), bs3) =>
        match consumeWhitespace bs3 with
        | .error e => .error e
        | .ok bs4 =>
          match consumeDecimalU32Until [32, 10] 0 bs4 with
          | .error e => .error e
          | .ok ((y, terminator), bs5) =>
            if terminator = 32 then
              match consumeHexadecimalColorUntilNewLine bs5 with
              | .error e => .error e
              | .ok (color, bs6) => .ok (.setPixel x y color, bs6)
            else .ok (.getPixel x y, bs5)
  | .ok (false, _) =>
    match consumeCompare SIZE_VERB bs with
    | .error e => .error e
    | .ok (true, bs1) => .ok (.size, bs1)
    | .ok (false, _) =>
      match consumeCompare HELP_VERB bs with
      | .error e => .error e
      | .ok (true, bs1) => .ok (.help, bs1)
      | .ok (false, _) =>
        match consumeCompare OFFSET_VERB bs with
        | .error e => .error e
        | .ok (true, bs1) =>
          match consumeWhitespace bs1 with
          | .error e => .error e
          | .ok bs2 =>
            match consumeDecimalU32Until [32] 0 bs2 with
            | .error e => .error e
            | .ok ((x, _), bs3) =>
              match consumeWhitespace bs3 with
              | .error e => .error e
              | .ok bs4 =>
                match consumeDecimalU32Until [10] 0 bs4 with
                | .error e => .error e
                | .ok ((y, _), bs5) => .ok (.offset x y, bs5)
        | .ok (false, _) => .error .unknownVerb

/-- Parse-execute drain loop of the connection handler at the language
level: repeatedly parse commands until MoreDataRequired (fuel is one more
than the byte count; each successful parse consumes at least one byte). -/
def streamFeedAux : Nat → List Nat → List Command → Except CommandRingError (List Command)
  | 0, _, _ => .error .moreDataRequired
  | fuel + 1, bs, acc =>
    match readNextCommandInner bs with
    | .ok (cmd, rest) => streamFeedAux fuel rest (acc ++ [cmd])
    | .error .moreDataRequired => .ok acc
    | .error e => .error e

/-- Commands recognized by the streaming parser in a byte sequence. -/
def streamFeed (bs : List Nat) : Except CommandRingError (List Command) :=
  streamFeedAux (bs.length + 1) bs []

/-! Pointer-level embedding of the CommandRing itself (struct CommandRing):
a buffer of `len` bytes with read and write indices and the last_op
tie-breaker that disambiguates the full and empty states. -/

/-- Operation enum of command_ring.rs (last_op values). -/
inductive RingOp where
  | read
  | write
deriving DecidableEq

/-- CommandRing state: `buf` holds the byte at each index of the backing
allocation; `read` and `write` are offsets below `len`. -/
structure CommandRing where
  len : Nat
  buf : List Nat
  read : Nat
  write : Nat
  lastOp : RingOp
deriving DecidableEq

/-- CommandRing::available_to_read: signed distance write-read, with
pointer equality resolved by last_op (Read means empty, Write means full). -/
def CommandRing.availableToRead (r : CommandRing) : Nat :=
  if r.read = r.write then
    match r.lastOp with
    | .read => 0
    | .write => r.len
  else if r.read < r.write then r.write - r.read
  else r.len - (r.read - r.write)

/-- CommandRing::contig_read: bytes readable without wrapping. -/
def CommandRing.contigRead (r : CommandRing) : Nat :=
  if r.read = r.write then
    match r.lastOp with
    | .read => 0
    | .write => r.len - r.read
  else if r.read < r.write then r.write - r.read
  else r.len - r.read

/-- CommandRing::increment_read_unchecked: advance read by one, wrapping at
the end of the allocation, and set last_op to Read. -/
def CommandRing.incrementRead (r : CommandRing) : CommandRing :=
  { r with read := if r.read + 1 = r.len then 0 else r.read + 1, lastOp := .read }

/-- CommandRing::advance_read_unchecked: advance read by an offset modulo
the capacity and set last_op to Read. -/
def CommandRing.advanceRead (r : CommandRing) (offset : Nat) : CommandRing :=
  { r with read := (r.read + offset) % r.len, lastOp := .read }

/-- Byte at the read position. -/
def CommandRing.byteAtRead (r : CommandRing) : Nat := r.buf.getD r.read 0

/-- The next `n` readable bytes, in read order, wrapping at the end of the
allocation (what consume_compare compares against a verb, covering both its
contiguous and its wrap-split path). -/
def CommandRing.bytesFromRead (r : CommandRing) (n : Nat) : List Nat :=
  (List.range n).map (fun i => r.buf.getD ((r.read + i) % r.len) 0)

/-- Loop of CommandRing::consume_whitespace at the ring level; fuel bounds
the iteration count (the loop visits at most `len` positions). -/
def ringConsumeWhitespaceLoop : Nat → CommandRing →
    Except CommandRingError Unit × CommandRing
  | 0, r => (.error .moreDataRequired, r)
  | fuel + 1, r =>
    if r.byteAtRead = 32 then
      let r1 := r.incrementRead
      if r1.read = r1.write then (.error .moreDataRequired, r1)
      else ringConsumeWhitespaceLoop fuel r1
    else (.ok (), r)

/-- CommandRing::consume_whitespace at the ring level. -/
def ringConsumeWhitespace (r : CommandRing) : Except CommandRingError Unit × CommandRing :=
  if r.availableToRead = 0 then (.error .moreDataRequired, r)
  else ringConsumeWhitespaceLoop (r.len + 1) r

/-- Loop of the impl_consume_decimal_u32_until! macro at the ring level;
the read==write test at the head of each iteration is the source's. -/
def ringConsumeDecimalLoop (terms : List Nat) : Nat → Nat → CommandRing →
    Except CommandRingError (Nat × Nat) × CommandRing
  | 0, _, r => (.error .moreDataRequired, r)
  | fuel + 1, value, r =>
    if r.read = r.write then (.error .moreDataRequired, r)
    else
      let digit := r.byteAtRead
      let r1 := r.incrementRead
      if digit ∈ terms then (.ok (value, digit), r1)
      else if hexLookup digit = INVALID_HEX_DIGIT then
        (.error (.invalidDecimalDigit digit), r1)
      else ringConsumeDecimalLoop terms fuel ((value * 10 + hexLookup digit) % 2 ^ 32) r1

/-- consume_decimal_u32_until_* at the ring level. -/
def ringConsumeDecimalU32Until (terms : List Nat) (r : CommandRing) :
    Except CommandRingError (Nat × Nat) × CommandRing :=
  if r.availableToRead = 0 then (.error .moreDataRequired, r)
  else ringConsumeDecimalLoop terms (r.len + 1) 0 r

/-- CommandRing::consume_compare at the ring level: the source's contiguous
and wrap-split comparisons both compare the next |verb| readable bytes. -/
def ringConsumeCompare (verb : List Nat) (r : CommandRing) :
    Except CommandRingError Bool × CommandRing :=
  if verb.length ≤ r.contigRead ∨ verb.length ≤ r.availableToRead then
    if r.bytesFromRead verb.length = verb then (.ok true, r.advanceRead verb.length)
    else (.ok false, r)
  else (.error .moreDataRequired, r)

/-- Loop of consume_hexadecimal_color_until_new_line at the ring level
(`for len in 0..9`); nine iterations of fuel always suffice. -/
def ringConsumeHexLoop : Nat → Nat → Nat → CommandRing →
    Except CommandRingError Bgra × CommandRing
  | 0, _, _, r => (.error .invalidColor, r)
  | fuel + 1, len, value, r =>
    if 9 ≤ len then (.error .invalidColor, r)
    else if r.read = r.write then (.error .moreDataRequired, r)
    else
      let chr := r.byteAtRead
      let r1 := r.incrementRead
      if chr = 10 then
        match len with
        | 6 => (.ok (Bgra.fromRgb value), r1)
        | 2 => (.ok (Bgra.fromBw (value % 256)), r1)
        | 8 => (.ok (Bgra.fromRgba value), r1)
        | _ => (.error .invalidColor, r1)
      else if hexLookup chr = INVALID_HEX_DIGIT then
        (.error (.invalidHexadecimalDigit chr), r1)
      else ringConsumeHexLoop fuel (len + 1) ((value * 16 + hexLookup chr) % 2 ^ 32) r1

/-- consume_hexadecimal_color_until_new_line at the ring level. -/
def ringConsumeHexadecimalColorUntilNewLine (r : CommandRing) :
    Except CommandRingError Bgra × CommandRing :=
  if r.availableToRead = 0 then (.error .moreDataRequired, r)
  else ringConsumeHexLoop 10 0 0 r

/-- CommandRing::read_next_command_inner at the ring level. -/
def ringReadNextCommandInner (r : CommandRing) :
    Except CommandRingError Command × CommandRing :=
  match ringConsumeCompare PX_VERB r with
  | (.error e, r1) => (.error e, r1)
  | (.ok true, r1) =>
    match ringConsumeWhitespace r1 with
    | (.error e, r2) => (.error e, r2)
    | (.ok _, r2) =>
      match ringConsumeDecimalU32Until [32] r2 with
      | (.error e, r3) => (.error e, r3)
      | (.ok (x, _), r3) =>
        match ringConsumeWhitespace r3 with
        | (.error e, r4) => (.error e, r4)
        | (.ok _, r4) =>
          match ringConsumeDecimalU32Until [32, 10] r4 with
          | (.error e, r5) => (.error e, r5)
          | (.ok (y, terminator), r5) =>
            if terminator = 32 then
              match ringConsumeHexadecimalColorUntilNewLine r5 with
              | (.error e, r6) => (.error e, r6)
              | (.ok color, r6) => (.ok (.setPixel x y color), r6)
            else (.ok (.getPixel x y), r5)
  | (.ok false, _) =>
    match ringConsumeCompare SIZE_VERB r with
    | (.error e, r1) => (.error e, r1)
    | (.ok true, r1) => (.ok .size, r1)
    | (.ok false, _) =>
      match ringConsumeCompare HELP_VERB r with
      | (.error e, r1) => (.error e, r1)
      | (.ok true, r1) => (.ok .help, r1)
      | (.ok false, _) =>
        match ringConsumeCompare OFFSET_VERB r with
        | (.error e, r1) => (.error e, r1)
        | (.ok true, r1) =>
          match ringConsumeWhitespace r1 with
          | (.error e, r2) => (.error e, r2)
          | (.ok _, r2) =>
            match ringConsumeDecimalU32Until [32] r2 with
            | (.error e, r3) => (.error e, r3)
            | (.ok (x, _), r3) =>
              match ringConsumeWhitespace r3 with
              | (.error e, r4) => (.error e, r4)
              | (.ok _, r4) =>
                match ringConsumeDecimalU32Until [10] r4 with
                | (.error e, r5) => (.error e, r5)
                | (.ok (y, _), r5) => (.ok (.offset x y), r5)
        | (.ok false, r1) => (.error .unknownVerb, r1)

/-- CommandRing::read_next_command: snapshot the read pointer and restore
it (and only it) when the inner parse reports MoreDataRequired. -/
def ringReadNextCommand (r : CommandRing) :
    Except CommandRingError Command × CommandRing :=
  match ringReadNextCommandInner r with
  | (.ok cmd, r1) => (.ok cmd, r1)
  | (.error .moreDataRequired, r1) =>
    (.error .moreDataRequired, { r1 with read := r.read })
  | (.error e, r1) => (.error e, r1)

/-! Canvas (wellenbrecher-canvas/src/lib.rs).  The shared-memory pixel and
user-id arrays are modelled as lists of length width*height; reads past an
array's end (which the Rust performs as raw out-of-allocation reads) are
modelled by the getD default. -/

/-- CanvasError (the shared-memory mapping variant is omitted: mapping is
OS state outside this model). -/
inductive CanvasError where
  | pixelOutOfBounds (x y : Nat)
  | invalidSize
deriving DecidableEq

/-- Canvas state: dimensions plus the BGRA pixel array and UserID array. -/
structure Canvas where
  width : Nat
  height : Nat
  data : List Bgra
  userIdMap : List Nat
deriving DecidableEq

/-- Well-formed canvas: both arrays have exactly width*height entries, as
laid out by Canvas::open. -/
def Canvas.wf (c : Canvas) : Prop :=
  c.data.length = c.width * c.height ∧ c.userIdMap.length = c.width * c.height

/-- Canvas::coords_to_index: y * width + x. -/
def Canvas.coordsToIndex (c : Canvas) (x y : Nat) : Nat := y * c.width + x

/-- Canvas::pixel.  The source's guard is `y > height || x > width`
(strict, unlike set_pixel's `>=`). -/
def Canvas.pixel (c : Canvas) (x y : Nat) : Except CanvasError Bgra :=
  if c.height < y ∨ c.width < x then .error (.pixelOutOfBounds x y)
  else .ok (c.data.getD (c.coordsToIndex x y) (Bgra.fromU32 0))

/-- Canvas::user.  Same `>` guard as Canvas::pixel. -/
def Canvas.user (c : Canvas) (x y : Nat) : Except CanvasError Nat :=
  if c.height < y ∨ c.width < x then .error (.pixelOutOfBounds x y)
  else .ok (c.userIdMap.getD (c.coordsToIndex x y) 0)

/-- Canvas::set_pixel: guard `x >= width || y >= height`; alpha 0 is a
no-op, alpha 255 overwrites pixel and user id, otherwise blend with
saturating subtraction on the packed 0xff00ff / 0x00ff00 channels (the u32
additions cannot wrap: both operands stay below 2^24).  The Rust mutates
through &self and returns Result<(), _>; here the updated canvas is
returned alongside, the error branch returning before any write. -/
def Canvas.setPixel (c : Canvas) (x y : Nat) (color : Bgra) (userId : Nat) :
    Except CanvasError Unit × Canvas :=
  if c.width ≤ x ∨ c.height ≤ y then (.error (.pixelOutOfBounds x y), c)
  else
    let idx := c.coordsToIndex x y
    if color.a = 0 then (.ok (), c)
    else if color.a = 255 then
      (.ok (), { c with data := c.data.set idx color,
                        userIdMap := c.userIdMap.set idx userId })
    else
      let color1 := ((c.pixel x y).toOption.getD (Bgra.fromU32 0)).rgb
      let color2 := color.rgb
      let alpha := color.a
      let rb0 := color1 &&& 0xff00ff
      let g0 := color1 &&& 0x00ff00
      let rb := rb0 + ((color2 &&& 0xff00ff) - rb0) * alpha / 2 ^ 8
      let g := g0 + ((color2 &&& 0x00ff00) - g0) * alpha / 2 ^ 8
      let newColor := Bgra.fromRgb ((rb &&& 0xff00ff) ||| (g &&& 0xff00))
      (.ok (), { c with data := c.data.set idx newColor,
                        userIdMap := c.userIdMap.set idx userId })

/-! Command execution (wellenbrecher/src/ring/command.rs).  Submitting a
write SQE is modelled as appending the written bytes to a reply list. -/

/-- CommandExecutionError; the PushError variant (submission queue full) is
not modelled: the submitter here always accepts. -/
inductive CommandExecutionError where
  | canvasError (e : CanvasError)
deriving DecidableEq

/-- HELP_TEXT from wellenbrecher/src/main.rs (a raw string in the source,
so its \n occurrences are the two characters backslash and n). -/
def helpText : String :=
  "Welcome to Pixelflut!\n\nCommands:\n    HELP                -> get this information page\n    SIZE                -> get the size of the canvas\n    PX <x> <y>          -> get the color of pixel (x, y)\n    PX <x> <y> <COLOR>  -> set the color of pixel (x, y)\n    OFFSET <x> <y>      -> sets an pixel offset for all following commands\n\n    COLOR:\n        Grayscale: ww          (\"00\"       black .. \"ff\"       white)\n        RGB:       rrggbb      (\"000000\"   black .. \"ffffff\"   white)\n        RGBA:      rrggbbaa    (rgb with alpha)\n    \nExample:\n    \"PX 420 69 ff\\n\"       -> set the color of pixel at (420, 69) to white\n    \"PX 420 69 00ffff\\n\"   -> set the color of pixel at (420, 69) to cyan\n    \"PX 420 69 ffff007f\\n\" -> blend the color of pixel at (420, 69) with yellow (alpha 127)\n"

/-- Lowercase hex digit character for a nibble. -/
def hexDigitChar (v : Nat) : Char := Char.ofNat (if v < 10 then 48 + v else 87 + v)

/-- Rendering of the format spec `{:0>8x}` for a u32: eight lowercase hex
digits, zero-padded. -/
def hex8 (v : Nat) : String :=
  String.mk ([7, 6, 5, 4, 3, 2, 1, 0].map (fun i => hexDigitChar (v / 16 ^ i % 16)))

/-- Command::handle_command.  GetPixel replies with
format!("PX {x} {y} {color:0>8x}\n") where color is u32::from of
canvas.pixel(x, y).unwrap_or_default(); SetPixel propagates the canvas
error.  Modelled from the spec: the Offset arm (absent from this revision
of command.rs, whose Command enum predates the parser's Offset variant)
produces no reply. -/
def handleCommand (cmd : Command) (canvas : Canvas) (userId : Nat) :
    Except CommandExecutionError (Canvas × List String) :=
  match cmd with
  | .help => .ok (canvas, [helpText])
  | .size => .ok (canvas, ["SIZE " ++ Nat.repr canvas.width ++ " " ++
      Nat.repr canvas.height ++ "\n"])
  | .setPixel x y color =>
    match canvas.setPixel x y color userId with
    | (.ok _, c1) => .ok (c1, [])
    | (.error e, _) => .error (.canvasError e)
  | .getPixel x y =>
    let color := u32OfBgra ((canvas.pixel x y).toOption.getD (Bgra.fromU32 0))
    .ok (canvas, ["PX " ++ Nat.repr x ++ " " ++ Nat.repr y ++ " " ++
      hex8 color ++ "\n"])
  | .offset _ _ => .ok (canvas, [])

/-! Naive reference parser (pfparse/src/lib.rs). -/

/-- ParserError of pfparse, with the Utf8Error and ParseIntError payloads
conflated into one variant (the naive parser's integer parsing below
reports invalidCharacterOrInteger whenever from_utf8 or from_str would
fail; for the ASCII inputs considered here the two coincide). -/
inductive NaiveError where
  | unknownCommand
  | invalidCoordinates
  | invalidColor
  | invalidCharacterOrInteger
deriving DecidableEq

/-- Behaviour of slice::split on a separator byte: the list of pieces,
always at least one, with empty pieces kept. -/
def splitOnByte (sep : Nat) : List Nat → List (List Nat)
  | [] => [[]]
  | b :: rest =>
    if b = sep then [] :: splitOnByte sep rest
    else
      match splitOnByte sep rest with
      | piece :: pieces => (b :: piece) :: pieces
      | [] => [[b]]

/-- Decimal digit test for a byte. -/
def isDecDigit (b : Nat) : Bool := 48 ≤ b ∧ b ≤ 57

/-- Base-10 value of a big-endian decimal digit byte string. -/
def decDigitsVal (ds : List Nat) : Nat := ds.foldl (fun a d => a * 10 + (d - 48)) 0

/-- Hex digit test for a byte, via the lookup table. -/
def isHexDigit (b : Nat) : Bool := hexLookup b ≠ INVALID_HEX_DIGIT

/-- Base-16 value of a big-endian hex digit byte string. -/
def hexDigitsVal (ds : List Nat) : Nat := ds.foldl (fun a d => a * 16 + hexLookup d) 0

/-- u16::from_str on a byte slice: an optional leading '+', then at least
one decimal digit, and the value must fit in a u16. -/
def parseU16 (s : List Nat) : Except NaiveError Nat :=
  let ds := if s.head? = some 43 then s.tail else s
  if ds ≠ [] ∧ ds.all isDecDigit then
    if decDigitsVal ds < 2 ^ 16 then .ok (decDigitsVal ds)
    else .error .invalidCharacterOrInteger
  else .error .invalidCharacterOrInteger

/-- u32::from_str_radix(_, 16) on a byte slice: an optional leading '+',
then at least one hex digit (either case), value fitting in a u32. -/
def parseHexU32 (s : List Nat) : Except NaiveError Nat :=
  let ds := if s.head? = some 43 then s.tail else s
  if ds ≠ [] ∧ ds.all isHexDigit then
    if hexDigitsVal ds < 2 ^ 32 then .ok (hexDigitsVal ds)
    else .error .invalidCharacterOrInteger
  else .error .invalidCharacterOrInteger

/-- Drop one trailing '\r' byte if present (the `[.., b'\r']` pattern
alternatives of NaiveParser::feed). -/
def stripTrailingCR (l : List Nat) : List Nat :=
  if l.getLast? = some 13 then l.dropLast else l

/-- One `\n`-split piece of NaiveParser::feed, in the source's match-arm
order; `none` is an empty piece, producing no command. -/
def naiveLine (cmd : List Nat) : Except NaiveError (Option Command) :=
  match cmd with
  | [] => .ok none
  | [72, 69, 76, 80] => .ok (some .help)
  | [72, 69, 76, 80, 13] => .ok (some .help)
  | [83, 73, 90, 69] => .ok (some .size)
  | [83, 73, 90, 69, 13] => .ok (some .size)
  | 79 :: 70 :: 70 :: 83 :: 69 :: 84 :: 32 :: cords =>
    match splitOnByte 32 (stripTrailingCR cords) with
    | [x, y] =>
      match parseU16 x with
      | .error e => .error e
      | .ok xv =>
        match parseU16 y with
        | .error e => .error e
        | .ok yv => .ok (some (.offset xv yv))
    | _ => .error .invalidCoordinates
  | 80 :: 88 :: 32 :: params =>
    match splitOnByte 32 (stripTrailingCR params) with
    | [x, y, colorBytes] =>
      let colorE : Except NaiveError Bgra :=
        if colorBytes.length = 6 then (parseHexU32 colorBytes).map Bgra.fromRgb
        else if colorBytes.length = 8 then (parseHexU32 colorBytes).map Bgra.fromArgb
        else if colorBytes.length = 2 then (parseHexU32 colorBytes).map Bgra.fromBw
        else .error .invalidColor
      match colorE with
      | .error e => .error e
      | .ok color =>
        match parseU16 x with
        | .error e => .error e
        | .ok xv =>
          match parseU16 y with
          | .error e => .error e
          | .ok yv => .ok (some (.setPixel xv yv color))
    | [x, y] =>
      match parseU16 x with
      | .error e => .error e
      | .ok xv =>
        match parseU16 y with
        | .error e => .error e
        | .ok yv => .ok (some (.getPixel xv yv))
    | _ => .error .invalidCoordinates
  | _ => .error .unknownCommand

/-- Sequential handling of the split pieces (the handler callback collects
the commands; the first error aborts). -/
def naiveFeedPieces : List (List Nat) → Except NaiveError (List Command)
  | [] => .ok []
  | piece :: rest =>
    match naiveLine piece with
    | .error e => .error e
    | .ok none => naiveFeedPieces rest
    | .ok (some c) =>
      match naiveFeedPieces rest with
      | .error e => .error e
      | .ok cs => .ok (c :: cs)

/-- NaiveParser::feed: split the data on '\n' and handle each piece. -/
def naiveFeed (bs : List Nat) : Except NaiveError (List Command) :=
  naiveFeedPieces (splitOnByte 10 bs)

/-! User state bookkeeping (wellenbrecher/src/ring/ring_coordination.rs).
IP addresses are octet lists (4 for IPv4, 16 for IPv6); the atomic
connections counter is its observed value. -/

/-- UserState: masked ip plus connections counter. -/
structure UserState where
  ip : List Nat
  connections : Nat
deriving DecidableEq

/-- Per-octet masking applied before lookup (both address families AND
each octet with the corresponding mask octet). -/
def maskIp (ip mask : List Nat) : List Nat := List.zipWith Nat.land ip mask

/-- Iterator find with index over the client vector (clients.iter()
.enumerate().find(...)). -/
def findFirst (p : UserState → Bool) : List UserState → Option (Nat × UserState)
  | [] => none
  | s :: rest =>
    if p s then some (0, s)
    else (findFirst p rest).map (fun q => (q.1 + 1, q.2))

/-- get_or_create_user_state: mask the ip; return an existing state's
1-based index; otherwise overwrite the first slot whose connections
counter is 0; otherwise push a new slot. -/
def getOrCreateUserState (clients : List UserState) (ip mask : List Nat) :
    (Nat × UserState) × List UserState :=
  match findFirst (fun s => s.ip == maskIp ip mask) clients with
  | some (idx, s) => ((idx + 1, s), clients)
  | none =>
    match findFirst (fun s => s.connections == 0) clients with
    | some (idx, _) =>
      ((idx + 1, { ip := maskIp ip mask, connections := 0 }),
        clients.set idx { ip := maskIp ip mask, connections := 0 })
    | none =>
      ((clients.length + 1, { ip := maskIp ip mask, connections := 0 }),
        clients ++ [{ ip := maskIp ip mask, connections := 0 }])

/-! Canonical renderings of protocol lines, used to state on which byte
sequences the naive and the streaming parser agree. -/

/-- Big-endian decimal digit bytes of `n` (auxiliary, fuel-driven). -/
def decRenderAux : Nat → Nat → List Nat
  | 0, _ => []
  | fuel + 1, n => if n = 0 then [] else (n % 10 + 48) :: decRenderAux fuel (n / 10)

/-- Minimal decimal rendering of a natural number as ASCII bytes. -/
def decRender (n : Nat) : List Nat :=
  if n = 0 then [48] else (decRenderAux n n).reverse

/-- The `k` nibbles of `v`, most significant first. -/
def hexNibbles (k v : Nat) : List Nat :=
  (List.range k).reverse.map (fun i => v / 16 ^ i % 16)

/-- Fixed-width lowercase hex rendering of `v` with `k` digits. -/
def hexRender (k v : Nat) : List Nat :=
  (hexNibbles k v).map (fun d => if d < 10 then d + 48 else d + 87)

/-- Canonical command lines: single separating spaces, minimal decimal
coordinates, lowercase fixed-width colors. -/
inductive CanonLine where
  | help
  | size
  | offset (x y : Nat)
  | getPixel (x y : Nat)
  | setPixelRgb (x y c : Nat)
  | setPixelBw (x y w : Nat)
deriving DecidableEq

/-- Bounds under which a canonical line is representable for both parsers
(u16 coordinates for pfparse; colors fitting their digit count). -/
def CanonLine.wf : CanonLine → Prop
  | .help => True
  | .size => True
  | .offset x y => x < 2 ^ 16 ∧ y < 2 ^ 16
  | .getPixel x y => x < 2 ^ 16 ∧ y < 2 ^ 16
  | .setPixelRgb x y c => x < 2 ^ 16 ∧ y < 2 ^ 16 ∧ c < 16 ^ 6
  | .setPixelBw x y w => x < 2 ^ 16 ∧ y < 2 ^ 16 ∧ w < 16 ^ 2

/-- Decidability of the canonical-line bounds. -/
instance (l : CanonLine) : Decidable l.wf := by
  cases l <;> unfold CanonLine.wf <;> infer_instance

/-- Bytes of a canonical line without the terminating newline. -/
def CanonLine.body : CanonLine → List Nat
  | .help => [72, 69, 76, 80]
  | .size => [83, 73, 90, 69]
  | .offset x y =>
    79 :: 70 :: 70 :: 83 :: 69 :: 84 :: 32 :: (decRender x ++ 32 :: decRender y)
  | .getPixel x y => 80 :: 88 :: 32 :: (decRender x ++ 32 :: decRender y)
  | .setPixelRgb x y c =>
    80 :: 88 :: 32 :: (decRender x ++ 32 :: (decRender y ++ 32 :: hexRender 6 c))
  | .setPixelBw x y w =>
    80 :: 88 :: 32 :: (decRender x ++ 32 :: (decRender y ++ 32 :: hexRender 2 w))

/-- Bytes of a canonical line including the terminating newline. -/
def CanonLine.render (l : CanonLine) : List Nat := l.body ++ [10]

/-- Command denoted by a canonical line. -/
def CanonLine.denote : CanonLine → Command
  | .help => .help
  | .size => .size
  | .offset x y => .offset x y
  | .getPixel x y => .getPixel x y
  | .setPixelRgb x y c => .setPixel x y (Bgra.fromRgb c)
  | .setPixelBw x y w => .setPixel x y (Bgra.fromBw w)

/-- Concatenation of rendered canonical lines. -/
def renderLines (ls : List CanonLine) : List Nat := (ls.map CanonLine.render).flatten

/-! Value helpers used to state the parsing lemmas. -/

/-- Base-10 digit fold with accumulator and without u32 wrapping. -/
def decValFrom (a : Nat) (ds : List Nat) : Nat :=
  ds.foldl (fun x d => x * 10 + (d - 48)) a

/-- Little-endian value of a decimal digit byte list. -/
def valLE : List Nat → Nat
  | [] => 0
  | d :: t => (d - 48) + 10 * valLE t

/-- Base-16 fold via the lookup table, with accumulator, without wrapping. -/
def hexValFrom (a : Nat) (ds : List Nat) : Nat :=
  ds.foldl (fun x d => x * 16 + hexLookup d) a

/-! Concrete instances used by the per-claim witnesses and counterexamples. -/

/-- Blank 11x21 canvas (large enough to hold the pixel (10, 20)). -/
def c1Canvas0 : Canvas :=
  { width := 11, height := 21, data := List.replicate 231 (Bgra.fromU32 0),
    userIdMap := List.replicate 231 0 }

/-- The canvas c1Canvas0 after storing color 0x0a0b0c (as 6-digit RGB) at
pixel (10, 20) for user 1. -/
def c1Canvas1 : Canvas :=
  { width := 11, height := 21,
    data := (List.replicate 231 (Bgra.fromU32 0)).set 230 (Bgra.fromRgb 0x0a0b0c),
    userIdMap := (List.replicate 231 0).set 230 1 }

/-- Tiny 2x2 canvas with four distinct pixels and user ids. -/
def c2Canvas : Canvas :=
  { width := 2, height := 2,
    data := [Bgra.fromU32 1, Bgra.fromU32 2, Bgra.fromU32 3, Bgra.fromU32 4],
    userIdMap := [10, 20, 30, 40] }

/-- Blank 2x2 canvas. -/
def c6Canvas : Canvas :=
  { width := 2, height := 2, data := List.replicate 4 (Bgra.fromU32 0),
    userIdMap := List.replicate 4 0 }

/-- Blank 1280x720 canvas (the dimensions of end-to-end scenario 5). -/
def c7Canvas : Canvas :=
  { width := 1280, height := 720, data := List.replicate 921600 (Bgra.fromU32 0),
    userIdMap := List.replicate 921600 0 }

/-- Blank 3x3 canvas. -/
def c8Canvas : Canvas :=
  { width := 3, height := 3, data := List.replicate 9 (Bgra.fromU32 0),
    userIdMap := List.replicate 9 0 }

/-- A completely full 4-byte command ring holding "PX 1": read == write
with last_op == Write. -/
def c5FullRing : CommandRing :=
  { len := 4, buf := [80, 88, 32, 49], read := 0, write := 0, lastOp := .write }

/-- A partially filled 8-byte command ring holding "PX 1". -/
def c5PartialRing : CommandRing :=
  { len := 8, buf := [80, 88, 32, 49, 0, 0, 0, 0], read := 0, write := 4,
    lastOp := .write }

/-- The bytes of "PX 0 0 cc1144ee\n". -/
def c4Input : List Nat :=
  [80, 88, 32, 48, 32, 48, 32, 99, 99, 49, 49, 52, 52, 101, 101, 10]

/-- States the parsing primitives can drive a ring into: capacity, buffer
and write pointer are untouched, and last_op is either untouched or was
set to Read by a read-pointer advance. -/
def RingReachable (r r1 : CommandRing) : Prop :=
  r1.len = r.len ∧ r1.buf = r.buf ∧ r1.write = r.write ∧
    (r1.lastOp = r.lastOp ∨ r1.lastOp = .read)

/-! Shared helper lemmas. -/

/-- Element read via getD after an in-bounds set. -/
theorem getD_set_self {α : Type _} :
    ∀ (l : List α) (n : Nat) (a d : α), n < l.length → (l.set n a).getD n d = a := by
  intro l
  induction l with
  | nil => intro n a d h; simp at h
  | cons hd tl ih =>
    intro n a d h
    cases n with
    | zero => rfl
    | succ m => simpa using ih m a d (by simpa using h)

/-- Row-major index of an in-bounds coordinate pair is in bounds. -/
theorem coordsToIndex_lt {c : Canvas} {x y : Nat}
    (hx : x < c.width) (hy : y < c.height) :
    c.coordsToIndex x y < c.width * c.height := by
  unfold Canvas.coordsToIndex
  calc y * c.width + x < y * c.width + c.width := by omega
  _ = (y + 1) * c.width := by ring
  _ ≤ c.height * c.width := Nat.mul_le_mul_right _ hy
  _ = c.width * c.height := Nat.mul_comm _ _

/-- Overwrite semantics of set_pixel for alpha 255: succeeds, keeps the
dimensions and lengths, and the written pixel and user id read back. -/
theorem setPixel_alpha255 (c : Canvas) (x y : Nat) (col : Bgra) (u : Nat)
    (hwf : c.wf) (hx : x < c.width) (hy : y < c.height) (ha : col.a = 255) :
    (c.setPixel x y col u).1 = .ok () ∧
    (c.setPixel x y col u).2 =
      { c with data := c.data.set (c.coordsToIndex x y) col,
               userIdMap := c.userIdMap.set (c.coordsToIndex x y) u } ∧
    (c.setPixel x y col u).2.pixel x y = .ok col ∧
    (c.setPixel x y col u).2.user x y = .ok u := by
  have hguard : ¬(c.width ≤ x ∨ c.height ≤ y) := by omega
  have hset : c.setPixel x y col u =
      (.ok (), { c with data := c.data.set (c.coordsToIndex x y) col,
                        userIdMap := c.userIdMap.set (c.coordsToIndex x y) u }) := by
    simp [Canvas.setPixel, hguard, ha]
  have hb : ¬(c.height < y ∨ c.width < x) := by omega
  refine ⟨by rw [hset], by rw [hset], ?_, ?_⟩
  · rw [hset]
    simp only [Canvas.pixel, hb, if_false, reduceIte]
    exact congrArg Except.ok
      (getD_set_self c.data _ col _ (by rw [hwf.1]; exact coordsToIndex_lt hx hy))
  · rw [hset]
    simp only [Canvas.user, hb, if_false, reduceIte]
    exact congrArg Except.ok
      (getD_set_self c.userIdMap _ u _ (by rw [hwf.2]; exact coordsToIndex_lt hx hy))

/-- C2 (code bug): Canvas::pixel and Canvas::user guard with the strict
comparison `y > height || x > width` instead of the `>=` used by set_pixel
and stated by the spec, so the boundary coordinate x = width (here (2, 0)
on a 2x2 canvas) is accepted and reads the entry at index y*W+x = 2 — the
pixel (0, 1) of the next row — while set_pixel on the same coordinate
correctly fails. -/
theorem c2_pixel_guard_bug :
    c2Canvas.pixel 2 0 = .ok (Bgra.fromU32 3) ∧
    c2Canvas.user 2 0 = .ok 30 ∧
    (c2Canvas.setPixel 2 0 (Bgra.fromRgb 255) 1).1 =
      .error (.pixelOutOfBounds 2 0) := ⟨rfl, rfl, rfl⟩

/-- C7 (confirmed): Canvas::set_pixel reports PixelOutOfBounds exactly for
x >= width or y >= height, and in the error case returns before writing,
leaving the canvas unchanged. -/
theorem c7_set_pixel_bounds (c : Canvas) (x y : Nat) (col : Bgra) (u : Nat) :
    ((c.setPixel x y col u).1 = .error (.pixelOutOfBounds x y) ↔
      (c.width ≤ x ∨ c.height ≤ y)) ∧
    ((c.width ≤ x ∨ c.height ≤ y) → (c.setPixel x y col u).2 = c) := by
  by_cases h : c.width ≤ x ∨ c.height ≤ y
  · refine ⟨⟨fun _ => h, fun _ => ?_⟩, fun _ => ?_⟩ <;> simp [Canvas.setPixel, h]
  · have hok : (c.setPixel x y col u).1 = .ok () := by
      unfold Canvas.setPixel
      simp only [h, if_false, reduceIte]
      split
      · rfl
      · split
        · rfl
        · rfl
    refine ⟨⟨fun herr => ?_, fun hc => absurd hc h⟩, fun hc => absurd hc h⟩
    rw [hok] at herr
    exact Except.noConfusion herr

/-- C7 witness: on a 1280x720 canvas, setting pixel (1280, 0) fails with
PixelOutOfBounds. -/
theorem c7_set_pixel_bounds_witness :
    (c7Canvas.setPixel 1280 0 (Bgra.fromRgb 255) 1).1 =
      .error (.pixelOutOfBounds 1280 0) :=
  (c7_set_pixel_bounds c7Canvas 1280 0 (Bgra.fromRgb 255) 1).1.mpr
    (Or.inl (by decide))

/-- C8 (confirmed): for in-bounds coordinates, a color with alpha 255 is
stored verbatim together with the user id and both read back, and a color
with alpha 0 leaves the canvas unchanged. -/
theorem c8_round_trip (c : Canvas) (x y : Nat) (col col0 : Bgra) (u : Nat)
    (hwf : c.wf) (hx : x < c.width) (hy : y < c.height)
    (ha : col.a = 255) (ha0 : col0.a = 0) :
    (c.setPixel x y col u).1 = .ok () ∧
    (c.setPixel x y col u).2.pixel x y = .ok col ∧
    (c.setPixel x y col u).2.user x y = .ok u ∧
    c.setPixel x y col0 u = (.ok (), c) := by
  obtain ⟨h1, _, h3, h4⟩ := setPixel_alpha255 c x y col u hwf hx hy ha
  refine ⟨h1, h3, h4, ?_⟩
  have hguard : ¬(c.width ≤ x ∨ c.height ≤ y) := by omega
  simp [Canvas.setPixel, hguard, ha0]

/-- C8 witness: concrete round trip at (1, 2) on a blank 3x3 canvas. -/
theorem c8_round_trip_witness :
    (c8Canvas.setPixel 1 2 (Bgra.fromRgb 0x112233) 7).1 = .ok () ∧
    (c8Canvas.setPixel 1 2 (Bgra.fromRgb 0x112233) 7).2.pixel 1 2 =
      .ok (Bgra.fromRgb 0x112233) ∧
    (c8Canvas.setPixel 1 2 (Bgra.fromRgb 0x112233) 7).2.user 1 2 = .ok 7 ∧
    c8Canvas.setPixel 1 2 { b := 9, g := 9, r := 9, a := 0 } 7 = (.ok (), c8Canvas) :=
  c8_round_trip c8Canvas 1 2 (Bgra.fromRgb 0x112233) { b := 9, g := 9, r := 9, a := 0 } 7
    (by constructor <;> decide) (by decide) (by decide) (by decide) (by decide)

/-! Digit lemmas for the streaming decimal parser. -/

/-- Lookup value of a decimal digit byte. -/
theorem hexLookup_decDigit {d : Nat} (h : isDecDigit d) : hexLookup d = d - 48 := by
  have h' : 48 ≤ d ∧ d ≤ 57 := by simpa [isDecDigit] using h
  simp [hexLookup, h']

/-- Decimal digit bytes are accepted by the lookup table. -/
theorem hexLookup_decDigit_ne {d : Nat} (h : isDecDigit d) :
    hexLookup d ≠ INVALID_HEX_DIGIT := by
  have h' : 48 ≤ d ∧ d ≤ 57 := by simpa [isDecDigit] using h
  rw [hexLookup_decDigit h]
  unfold INVALID_HEX_DIGIT
  omega

/-- decValFrom only grows from its accumulator. -/
theorem decValFrom_mono : ∀ (ds : List Nat) (a : Nat), a ≤ decValFrom a ds := by
  intro ds
  induction ds with
  | nil => intro a; exact Nat.le_refl a
  | cons d t ih =>
    intro a
    calc a ≤ a * 10 + (d - 48) := by omega
    _ ≤ decValFrom (a * 10 + (d - 48)) t := ih _

/-- Running the decimal consumer over a pure decimal digit string followed
by a terminator: the u32 wrapping never fires below 2^32 and the exact
base-10 value is produced. -/
theorem consumeDecimal_digits (terms : List Nat) (ds : List Nat) (t : Nat)
    (rest : List Nat) (hds : ∀ d ∈ ds, isDecDigit d)
    (hterm : ∀ d ∈ ds, d ∉ terms) (ht : t ∈ terms) :
    ∀ v, decValFrom v ds < 2 ^ 32 →
      consumeDecimalU32Until terms v (ds ++ t :: rest) =
        .ok ((decValFrom v ds, t), rest) := by
  induction ds with
  | nil =>
    intro v _
    simp [consumeDecimalU32Until, ht, decValFrom]
  | cons d ds' ih =>
    intro v hbound
    have hd : isDecDigit d := hds d (List.mem_cons_self d ds')
    have hdt : d ∉ terms := hterm d (List.mem_cons_self d ds')
    have hstep : decValFrom v (d :: ds') = decValFrom (v * 10 + (d - 48)) ds' := by
      simp [decValFrom]
    have hmod : (v * 10 + hexLookup d) % 2 ^ 32 = v * 10 + (d - 48) := by
      rw [hexLookup_decDigit hd]
      have : v * 10 + (d - 48) ≤ decValFrom (v * 10 + (d - 48)) ds' :=
        decValFrom_mono ds' _
      rw [hstep] at hbound
      exact Nat.mod_eq_of_lt (by omega)
    have := ih (fun d hmem => hds d (List.mem_cons_of_mem _ hmem))
      (fun d hmem => hterm d (List.mem_cons_of_mem _ hmem))
      (v * 10 + (d - 48)) (by rw [← hstep]; exact hbound)
    simp only [List.cons_append, consumeDecimalU32Until, hdt, if_false,
      hexLookup_decDigit_ne hd, reduceIte, hmod, hstep]
    exact this

/-- C3 (corrected): the coordinate consumer accepts exactly the bytes the
HEX_LOOKUP table accepts — ASCII decimal digits AND the hex letters
a-f/A-F (valued 10..15 and folded base-10) — rejecting only bytes outside
the table with InvalidDecimalDigit; a pure decimal digit string followed
by a terminator parses to its base-10 value. -/
theorem c3_decimal_consumer :
    (∀ (terms : List Nat) (v b : Nat) (rest : List Nat), b ∉ terms →
      hexLookup b = INVALID_HEX_DIGIT →
      consumeDecimalU32Until terms v (b :: rest) =
        .error (.invalidDecimalDigit b)) ∧
    (∀ (terms : List Nat) (v b : Nat) (rest : List Nat), b ∉ terms →
      hexLookup b ≠ INVALID_HEX_DIGIT →
      consumeDecimalU32Until terms v (b :: rest) =
        consumeDecimalU32Until terms ((v * 10 + hexLookup b) % 2 ^ 32) rest) ∧
    (∀ (terms ds : List Nat) (t : Nat) (rest : List Nat),
      (∀ d ∈ ds, isDecDigit d) → (∀ d ∈ ds, d ∉ terms) → t ∈ terms →
      decDigitsVal ds < 2 ^ 32 →
      consumeDecimalU32Until terms 0 (ds ++ t :: rest) =
        .ok ((decDigitsVal ds, t), rest)) := by
  refine ⟨?_, ?_, ?_⟩
  · intro terms v b rest hb hinv
    simp [consumeDecimalU32Until, hb, hinv]
  · intro terms v b rest hb hinv
    simp [consumeDecimalU32Until, hb, hinv]
  · intro terms ds t rest hds hterm ht hlt
    exact consumeDecimal_digits terms ds t rest hds hterm ht 0 hlt

/-- C3 witness: '@' (64) is rejected as InvalidDecimalDigit, 'b' (98) is
consumed with value 11, and the digit string "42" parses to 42. -/
theorem c3_decimal_consumer_witness :
    consumeDecimalU32Until [32] 5 [64, 10] = .error (.invalidDecimalDigit 64) ∧
    consumeDecimalU32Until [32] 1 [98, 32] =
      consumeDecimalU32Until [32] ((1 * 10 + hexLookup 98) % 2 ^ 32) [32] ∧
    consumeDecimalU32Until [32] 0 ([52, 50] ++ 32 :: []) =
      .ok ((decDigitsVal [52, 50], 32), []) :=
  ⟨c3_decimal_consumer.1 [32] 5 64 [10] (by decide) (by decide),
   c3_decimal_consumer.2.1 [32] 1 98 [32] (by decide) (by decide),
   c3_decimal_consumer.2.2 [32] [52, 50] 32 [] (by decide) (by decide)
     (by decide) (by decide)⟩

/-- C3 counterexample: the byte 'a' (97) is neither an ASCII decimal digit
nor the terminator, yet the consumer accepts it with value 10 instead of
reporting InvalidDecimalDigit, refuting the claim that exactly '0'..'9'
are accepted. -/
theorem c3_counterexample :
    consumeDecimalU32Until [32] 0 [97, 32] = .ok ((10, 32), []) ∧
    consumeDecimalU32Until [32] 0 [97, 32] ≠
      .error (.invalidDecimalDigit 97) := by
  constructor
  · rfl
  · intro h
    exact Except.noConfusion h

/-! Whitespace/verb lemmas and C10. -/

/-- consume_compare succeeds and advances when the verb is a prefix. -/
theorem consumeCompare_prefix (verb rest : List Nat) :
    consumeCompare verb (verb ++ rest) = .ok (true, rest) := by
  have hlen : verb.length ≤ (verb ++ rest).length := by
    simp [List.length_append]
  simp [consumeCompare, hlen, List.take_left, List.drop_left]

/-- consume_whitespace skips any run of spaces before a non-space byte. -/
theorem consumeWhitespace_replicate (n : Nat) (b : Nat) (rest : List Nat)
    (hb : b ≠ 32) :
    consumeWhitespace (List.replicate n 32 ++ b :: rest) = .ok (b :: rest) := by
  induction n with
  | zero => simp [consumeWhitespace, hb]
  | succ m ih => simpa [consumeWhitespace] using ih

/-- C10 (confirmed): the streaming parser accepts any run of zero or more
spaces after the PX verb and any run of one or more spaces between the two
coordinates (the grammar's single SP); in particular "PX1 2\n" and
"PX  1   2\n" both parse to GetPixel 1 2. -/
theorem c10_space_runs (n m : Nat) (hm : 1 ≤ m) :
    readNextCommandInner ([80, 88] ++ (List.replicate n 32 ++
      (49 :: (List.replicate m 32 ++ [50, 10])))) = .ok (.getPixel 1 2, []) := by
  obtain ⟨m', rfl⟩ : ∃ m', m = m' + 1 := ⟨m - 1, by omega⟩
  show readNextCommandInner (PX_VERB ++ (List.replicate n 32 ++
    (49 :: (List.replicate (m' + 1) 32 ++ [50, 10])))) = .ok (.getPixel 1 2, [])
  have h1 := consumeCompare_prefix PX_VERB
    (List.replicate n 32 ++ (49 :: (List.replicate (m' + 1) 32 ++ [50, 10])))
  have h2 : consumeWhitespace (List.replicate n 32 ++
      (49 :: (List.replicate (m' + 1) 32 ++ [50, 10]))) =
      .ok (49 :: (List.replicate (m' + 1) 32 ++ [50, 10])) :=
    consumeWhitespace_replicate n 49 _ (by decide)
  have h3 : consumeDecimalU32Until [32] 0
      (49 :: (List.replicate (m' + 1) 32 ++ [50, 10])) =
      .ok ((1, 32), List.replicate m' 32 ++ [50, 10]) := by
    have := consumeDecimal_digits [32] [49] 32
      (List.replicate m' 32 ++ [50, 10]) (by decide) (by decide) (by decide)
      0 (by decide)
    simpa [List.replicate_succ, decValFrom] using this
  have h4 : consumeWhitespace (List.replicate m' 32 ++ [50, 10]) =
      .ok [50, 10] := consumeWhitespace_replicate m' 50 [10] (by decide)
  have h5 : consumeDecimalU32Until [32, 10] 0 [50, 10] =
      .ok ((2, 10), []) := by
    have := consumeDecimal_digits [32, 10] [50] 10 [] (by decide) (by decide)
      (by decide) 0 (by decide)
    simpa [decValFrom] using this
  simp [readNextCommandInner, h1, h2, h3, h4, h5]

/-- C10 witness: the two inputs named by the claim, "PX1 2\n" (no space
after the verb) and "PX  1   2\n" (runs of two and three spaces), both
parse to GetPixel 1 2. -/
theorem c10_space_runs_witness :
    readNextCommandInner ([80, 88] ++ (List.replicate 0 32 ++
      (49 :: (List.replicate 1 32 ++ [50, 10])))) = .ok (.getPixel 1 2, []) ∧
    readNextCommandInner ([80, 88] ++ (List.replicate 2 32 ++
      (49 :: (List.replicate 3 32 ++ [50, 10])))) = .ok (.getPixel 1 2, []) :=
  ⟨c10_space_runs 0 1 (by decide), c10_space_runs 2 3 (by decide)⟩

/-! Ring-state preservation lemmas for the transactional-read claim. -/

/-- RingReachable is reflexive. -/
theorem reach_refl (r : CommandRing) : RingReachable r r :=
  ⟨rfl, rfl, rfl, Or.inl rfl⟩

/-- RingReachable is transitive. -/
theorem reach_trans {r r1 r2 : CommandRing}
    (h1 : RingReachable r r1) (h2 : RingReachable r1 r2) : RingReachable r r2 := by
  obtain ⟨a1, b1, c1, d1⟩ := h1
  obtain ⟨a2, b2, c2, d2⟩ := h2
  refine ⟨a2.trans a1, b2.trans b1, c2.trans c1, ?_⟩
  rcases d2 with h | h
  · rw [h]; exact d1
  · exact Or.inr h

/-- increment_read only moves the read pointer. -/
theorem reach_incrementRead (r : CommandRing) : RingReachable r r.incrementRead :=
  ⟨rfl, rfl, rfl, Or.inr rfl⟩

/-- advance_read only moves the read pointer. -/
theorem reach_advanceRead (r : CommandRing) (k : Nat) :
    RingReachable r (r.advanceRead k) :=
  ⟨rfl, rfl, rfl, Or.inr rfl⟩

/-- The whitespace loop only moves the read pointer. -/
theorem reach_whitespaceLoop :
    ∀ (fuel : Nat) (r : CommandRing),
      RingReachable r (ringConsumeWhitespaceLoop fuel r).2 := by
  intro fuel
  induction fuel with
  | zero => intro r; exact reach_refl r
  | succ n ih =>
    intro r
    simp only [ringConsumeWhitespaceLoop]
    split
    · split
      · exact reach_incrementRead r
      · exact reach_trans (reach_incrementRead r) (ih r.incrementRead)
    · exact reach_refl r

/-- consume_whitespace only moves the read pointer. -/
theorem reach_whitespace (r : CommandRing) :
    RingReachable r (ringConsumeWhitespace r).2 := by
  unfold ringConsumeWhitespace
  split
  · exact reach_refl r
  · exact reach_whitespaceLoop _ r

/-- The decimal loop only moves the read pointer. -/
theorem reach_decimalLoop (terms : List Nat) :
    ∀ (fuel value : Nat) (r : CommandRing),
      RingReachable r (ringConsumeDecimalLoop terms fuel value r).2 := by
  intro fuel
  induction fuel with
  | zero => intro value r; exact reach_refl r
  | succ n ih =>
    intro value r
    simp only [ringConsumeDecimalLoop]
    split
    · exact reach_refl r
    · split
      · exact reach_incrementRead r
      · split
        · exact reach_incrementRead r
        · exact reach_trans (reach_incrementRead r) (ih _ r.incrementRead)

/-- consume_decimal only moves the read pointer. -/
theorem reach_decimal (terms : List Nat) (r : CommandRing) :
    RingReachable r (ringConsumeDecimalU32Until terms r).2 := by
  unfold ringConsumeDecimalU32Until
  split
  · exact reach_refl r
  · exact reach_decimalLoop terms _ 0 r

/-- consume_compare only moves the read pointer. -/
theorem reach_compare (verb : List Nat) (r : CommandRing) :
    RingReachable r (ringConsumeCompare verb r).2 := by
  unfold ringConsumeCompare
  split
  · split
    · exact reach_advanceRead r verb.length
    · exact reach_refl r
  · exact reach_refl r

/-- The hex color loop only moves the read pointer. -/
theorem reach_hexLoop :
    ∀ (fuel len value : Nat) (r : CommandRing),
      RingReachable r (ringConsumeHexLoop fuel len value r).2 := by
  intro fuel
  induction fuel with
  | zero => intro len value r; exact reach_refl r
  | succ n ih =>
    intro len value r
    simp only [ringConsumeHexLoop]
    split
    · exact reach_refl r
    · split
      · exact reach_refl r
      · split
        · split <;> exact reach_incrementRead r
        · split
          · exact reach_incrementRead r
          · exact reach_trans (reach_incrementRead r) (ih _ _ r.incrementRead)

/-- consume_hexadecimal_color only moves the read pointer. -/
theorem reach_hexColor (r : CommandRing) :
    RingReachable r (ringConsumeHexadecimalColorUntilNewLine r).2 := by
  unfold ringConsumeHexadecimalColorUntilNewLine
  split
  · exact reach_refl r
  · exact reach_hexLoop 10 0 0 r

/-- Forward composition of RingReachable through consume_compare. -/
theorem reach_compare_eq {r0 r r1 : CommandRing} {verb : List Nat}
    {res : Except CommandRingError Bool}
    (h : ringConsumeCompare verb r = (res, r1)) (hr : RingReachable r0 r) :
    RingReachable r0 r1 := by
  have := reach_compare verb r
  rw [h] at this
  exact reach_trans hr this

/-- Forward composition of RingReachable through consume_whitespace. -/
theorem reach_whitespace_eq {r0 r r1 : CommandRing}
    {res : Except CommandRingError Unit}
    (h : ringConsumeWhitespace r = (res, r1)) (hr : RingReachable r0 r) :
    RingReachable r0 r1 := by
  have := reach_whitespace r
  rw [h] at this
  exact reach_trans hr this

/-- Forward composition of RingReachable through consume_decimal. -/
theorem reach_decimal_eq {r0 r r1 : CommandRing} {terms : List Nat}
    {res : Except CommandRingError (Nat × Nat)}
    (h : ringConsumeDecimalU32Until terms r = (res, r1)) (hr : RingReachable r0 r) :
    RingReachable r0 r1 := by
  have := reach_decimal terms r
  rw [h] at this
  exact reach_trans hr this

/-- Forward composition of RingReachable through the hex color consumer. -/
theorem reach_hexColor_eq {r0 r r1 : CommandRing}
    {res : Except CommandRingError Bgra}
    (h : ringConsumeHexadecimalColorUntilNewLine r = (res, r1))
    (hr : RingReachable r0 r) : RingReachable r0 r1 := by
  have := reach_hexColor r
  rw [h] at this
  exact reach_trans hr this

/-- read_next_command_inner only moves the read pointer: capacity, buffer
and write pointer are preserved, and last_op is preserved or set to Read. -/
theorem reach_readNextCommandInner (r : CommandRing) :
    RingReachable r (ringReadNextCommandInner r).2 := by
  unfold ringReadNextCommandInner
  repeat' split
  all_goals
    repeat'
      first
      | exact reach_refl _
      | refine reach_compare_eq (by assumption) ?_
      | refine reach_whitespace_eq (by assumption) ?_
      | refine reach_decimal_eq (by assumption) ?_
      | refine reach_hexColor_eq (by assumption) ?_

/-- C5 (corrected): when read_next_command reports MoreDataRequired the
read pointer is always restored, and available_to_read is preserved
provided the ring was not completely full; in the full state (read ==
write with last_op == Write) the restoration misses last_op, which a
partial parse has set to Read, so available_to_read collapses to 0. -/
theorem c5_transactional_read (r : CommandRing)
    (h : (ringReadNextCommand r).1 = .error .moreDataRequired) :
    (ringReadNextCommand r).2.read = r.read ∧
    (r.availableToRead < r.len →
      (ringReadNextCommand r).2.availableToRead = r.availableToRead) := by
  have hreach := reach_readNextCommandInner r
  unfold ringReadNextCommand at h ⊢
  rcases hinner : ringReadNextCommandInner r with ⟨res, r1⟩
  rw [hinner] at hreach
  rcases res with e | cmd
  · rcases e with _ | c | c | _ | _
    · have hlen : r1.len = r.len := by simpa using hreach.1
      have hw : r1.write = r.write := by simpa using hreach.2.2.1
      have hop : r1.lastOp = r.lastOp ∨ r1.lastOp = .read := by
        simpa using hreach.2.2.2
      refine ⟨rfl, fun hnotfull => ?_⟩
      show CommandRing.availableToRead { r1 with read := r.read } = r.availableToRead
      by_cases hrw : r.read = r.write
      · have hL : r.lastOp = RingOp.read := by
          rcases hLop : r.lastOp with _ | _
          · rfl
          · exfalso
            unfold CommandRing.availableToRead at hnotfull
            rw [if_pos hrw, hLop] at hnotfull
            simp at hnotfull
        have hop' : r1.lastOp = RingOp.read := by
          rcases hop with h1 | h1
          · rw [h1, hL]
          · exact h1
        unfold CommandRing.availableToRead
        simp [hrw, hw, hop', hL]
      · unfold CommandRing.availableToRead
        simp only [hw, hlen]
        simp [hrw]
    · exact absurd h (by simp [hinner])
    · exact absurd h (by simp [hinner])
    · exact absurd h (by simp [hinner])
    · exact absurd h (by simp [hinner])
  · exact absurd h (by simp [hinner])

/-- C5 witness: a non-full ring holding "PX 1" in an 8-byte buffer; the
parse consumes the partial command, reports MoreDataRequired, and the ring
reports the same read position and the same 4 available bytes. -/
theorem c5_transactional_read_witness :
    (ringReadNextCommand c5PartialRing).2.read = c5PartialRing.read ∧
    (c5PartialRing.availableToRead < c5PartialRing.len →
      (ringReadNextCommand c5PartialRing).2.availableToRead =
        c5PartialRing.availableToRead) :=
  c5_transactional_read c5PartialRing rfl

/-- C5 counterexample: on the completely full 4-byte ring holding "PX 1"
(read == write, last_op == Write, 4 bytes available) the parse returns
MoreDataRequired and restores the read pointer, but last_op has become
Read, so available_to_read drops from 4 to 0 — the ring state is not
equivalent to the one before the call. -/
theorem c5_counterexample :
    (ringReadNextCommand c5FullRing).1 = .error .moreDataRequired ∧
    (ringReadNextCommand c5FullRing).2.read = c5FullRing.read ∧
    c5FullRing.availableToRead = 4 ∧
    (ringReadNextCommand c5FullRing).2.availableToRead = 0 :=
  ⟨rfl, rfl, rfl, rfl⟩

/-! Command execution: the GetPixel reply (C1) and out-of-bounds GetPixel
behaviour (C6). -/

/-- C1 (corrected): a write-then-read round trip on an in-bounds pixel
replies "PX <x> <y> <hex8>\n", but the eight hex digits render
u32::from(Bgra) = (b << 24) | (g << 16) | (r << 8) | a — byte order
bbggrraa, not the aarrggbb the spec names (whose own example is rrggbbaa);
after 'PX 10 20 0a0b0c' the reply is "PX 10 20 0c0b0aff\n". -/
theorem c1_get_pixel_reply (c : Canvas) (x y u : Nat) (col : Bgra)
    (hwf : c.wf) (hx : x < c.width) (hy : y < c.height) (ha : col.a = 255) :
    ∃ c1, handleCommand (.setPixel x y col) c u = .ok (c1, []) ∧
      handleCommand (.getPixel x y) c1 u =
        .ok (c1, ["PX " ++ Nat.repr x ++ " " ++ Nat.repr y ++ " " ++
          hex8 (col.b * 2 ^ 24 + col.g * 2 ^ 16 + col.r * 2 ^ 8 + col.a) ++
          "\n"]) := by
  obtain ⟨h1, _, h3, _⟩ := setPixel_alpha255 c x y col u hwf hx hy ha
  rcases hsp : c.setPixel x y col u with ⟨res, c1⟩
  rw [hsp] at h1 h3
  simp only at h1 h3
  refine ⟨c1, ?_, ?_⟩
  · simp only [handleCommand, hsp, h1]
  · simp only [handleCommand, h3]
    rfl

/-- C1 witness: the concrete scenario at (10, 20) with color 0x0a0b0c on
an 11x21 canvas. -/
theorem c1_get_pixel_reply_witness :
    ∃ c1, handleCommand (.setPixel 10 20 (Bgra.fromRgb 0x0a0b0c)) c1Canvas0 1 =
        .ok (c1, []) ∧
      handleCommand (.getPixel 10 20) c1 1 =
        .ok (c1, ["PX " ++ Nat.repr 10 ++ " " ++ Nat.repr 20 ++ " " ++
          hex8 ((Bgra.fromRgb 0x0a0b0c).b * 2 ^ 24 +
            (Bgra.fromRgb 0x0a0b0c).g * 2 ^ 16 +
            (Bgra.fromRgb 0x0a0b0c).r * 2 ^ 8 +
            (Bgra.fromRgb 0x0a0b0c).a) ++ "\n"]) :=
  c1_get_pixel_reply c1Canvas0 10 20 1 (Bgra.fromRgb 0x0a0b0c)
    (by constructor <;> decide) (by decide) (by decide) (by decide)

/-- C1 counterexample: after 'PX 10 20 0a0b0c\n' the reply to 'PX 10 20\n'
is "PX 10 20 0c0b0aff\n" (bbggrraa), not the "PX 10 20 0a0b0cff\n" the
claim and spec state. -/
theorem c1_counterexample :
    (handleCommand (.setPixel 10 20 (Bgra.fromRgb 0x0a0b0c)) c1Canvas0 1).bind
      (fun p => handleCommand (.getPixel 10 20) p.1 1) =
      .ok (c1Canvas1, ["PX 10 20 0c0b0aff\n"]) ∧
    "PX 10 20 0c0b0aff\n" ≠ "PX 10 20 0a0b0cff\n" :=
  ⟨rfl, by decide⟩

/-- C6 (corrected): an out-of-bounds GetPixel does not fail: the canvas
error is discarded by unwrap_or_default, so for x > width or y > height
the command succeeds and submits the reply "PX <x> <y> 00000000\n" built
from the default color; the connection stays open.  Only SetPixel's
out-of-bounds error reaches the connection handler's close path. -/
theorem c6_get_pixel_oob (c : Canvas) (x y u : Nat)
    (h : c.width < x ∨ c.height < y) :
    handleCommand (.getPixel x y) c u =
      .ok (c, ["PX " ++ Nat.repr x ++ " " ++ Nat.repr y ++ " " ++
        hex8 0 ++ "\n"]) := by
  have hpix : c.pixel x y = .error (.pixelOutOfBounds x y) := by
    unfold Canvas.pixel
    rw [if_pos h.symm]
  have h2 : (c.pixel x y).toOption.getD (Bgra.fromU32 0) = Bgra.fromU32 0 := by
    rw [hpix]
    exact rfl
  simp only [handleCommand, h2, show u32OfBgra (Bgra.fromU32 0) = 0 from rfl]

/-- C6 witness: GetPixel at (5, 0) on a 2x2 canvas succeeds with the
all-zero reply. -/
theorem c6_get_pixel_oob_witness :
    handleCommand (.getPixel 5 0) c6Canvas 1 =
      .ok (c6Canvas, ["PX " ++ Nat.repr 5 ++ " " ++ Nat.repr 0 ++ " " ++
        hex8 0 ++ "\n"]) :=
  c6_get_pixel_oob c6Canvas 5 0 1 (Or.inl (by decide))

/-- C6 counterexample: on a 2x2 canvas the out-of-bounds GetPixel (5, 0)
executes successfully and a PX reply is submitted, refuting the claim
that execution fails with the out-of-bounds canvas error and that the
connection is closed without any PX reply. -/
theorem c6_counterexample :
    handleCommand (.getPixel 5 0) c6Canvas 1 =
      .ok (c6Canvas, ["PX 5 0 00000000\n"]) ∧
    c6Canvas.width ≤ 5 :=
  ⟨rfl, by decide⟩

/-! User-state lemmas and C9. -/

/-- A failed findFirst means no element satisfies the predicate. -/
theorem findFirst_eq_none {p : UserState → Bool} :
    ∀ {l : List UserState}, findFirst p l = none → ∀ s ∈ l, p s = false := by
  intro l
  induction l with
  | nil => intro _ s hs; cases hs
  | cons hd tl ih =>
    intro h s hs
    have hp : p hd = false ∧ findFirst p tl = none := by
      by_cases hphd : p hd
      · simp [findFirst, hphd] at h
      · refine ⟨by simpa using hphd, ?_⟩
        simp only [findFirst, hphd, if_false, reduceIte] at h
        simpa using h
    rcases List.mem_cons.mp hs with rfl | hs2
    · exact hp.1
    · exact ih hp.2 s hs2

/-- Setting a slot to a fresh element preserves Nodup. -/
theorem nodup_set_of_not_mem {α : Type _} :
    ∀ (l : List α) (i : Nat) (a : α), l.Nodup → a ∉ l → (l.set i a).Nodup := by
  intro l
  induction l with
  | nil => intro i a _ _; simp
  | cons hd tl ih =>
    intro i a hnd hmem
    cases i with
    | zero =>
      simp only [List.set]
      rw [List.nodup_cons]
      refine ⟨fun hc => hmem (List.mem_cons_of_mem _ hc), (List.nodup_cons.mp hnd).2⟩
    | succ j =>
      simp only [List.set]
      rw [List.nodup_cons]
      obtain ⟨hh, ht⟩ := List.nodup_cons.mp hnd
      refine ⟨fun hc => ?_, ih j a ht (fun hc => hmem (List.mem_cons_of_mem _ hc))⟩
      rcases List.mem_or_eq_of_mem_set hc with hc | hc
      · exact hh hc
      · exact hmem (by rw [hc]; exact List.mem_cons_self a tl)

/-- C9 (confirmed): get_or_create_user_state returns a 1-based index
(never 0); an existing state with the masked ip is returned unchanged with
its index; otherwise the first slot whose connections counter is 0 is
overwritten, and a slot is appended only when no such slot exists; the
at-most-one-state-per-masked-ip invariant is preserved. -/
theorem c9_get_or_create_user_state (clients : List UserState) (ip mask : List Nat) :
    1 ≤ (getOrCreateUserState clients ip mask).1.1 ∧
    (∀ i s, findFirst (fun t => t.ip == maskIp ip mask) clients = some (i, s) →
      getOrCreateUserState clients ip mask = ((i + 1, s), clients)) ∧
    (findFirst (fun t => t.ip == maskIp ip mask) clients = none →
      ∀ i s, findFirst (fun t => t.connections == 0) clients = some (i, s) →
        getOrCreateUserState clients ip mask =
          ((i + 1, ⟨maskIp ip mask, 0⟩), clients.set i ⟨maskIp ip mask, 0⟩)) ∧
    (findFirst (fun t => t.ip == maskIp ip mask) clients = none →
      findFirst (fun t => t.connections == 0) clients = none →
        getOrCreateUserState clients ip mask =
          ((clients.length + 1, ⟨maskIp ip mask, 0⟩),
            clients ++ [⟨maskIp ip mask, 0⟩])) ∧
    ((clients.map UserState.ip).Nodup →
      ((getOrCreateUserState clients ip mask).2.map UserState.ip).Nodup) := by
  rcases h1 : findFirst (fun t => t.ip == maskIp ip mask) clients with _ | ⟨i0, s0⟩
  · have hfresh : UserState.mk (maskIp ip mask) 0 ∉ clients := by
      intro hmem
      have := findFirst_eq_none h1 _ hmem
      simp at this
    have hfreshIp : maskIp ip mask ∉ clients.map UserState.ip := by
      intro hmem
      rcases List.mem_map.mp hmem with ⟨s, hs, hip⟩
      have := findFirst_eq_none h1 s hs
      rw [hip] at this
      simp at this
    rcases h2 : findFirst (fun t => t.connections == 0) clients with _ | ⟨j0, t0⟩
    · have hg : getOrCreateUserState clients ip mask =
          ((clients.length + 1, ⟨maskIp ip mask, 0⟩),
            clients ++ [⟨maskIp ip mask, 0⟩]) := by
        unfold getOrCreateUserState
        rw [h1, h2]
      refine ⟨by rw [hg]; exact Nat.le_add_left 1 clients.length, ?_, ?_, ?_, ?_⟩
      · intro i s hc; cases hc
      · intro _ i s hc; cases hc
      · intro _ _; exact hg
      · intro hnd
        rw [hg]
        simp only [List.map_append, List.map_cons, List.map_nil]
        simp [List.nodup_append, hnd, hfreshIp]
    · have hg : getOrCreateUserState clients ip mask =
          ((j0 + 1, ⟨maskIp ip mask, 0⟩), clients.set j0 ⟨maskIp ip mask, 0⟩) := by
        unfold getOrCreateUserState
        rw [h1, h2]
      refine ⟨by rw [hg]; exact Nat.le_add_left 1 j0, ?_, ?_, ?_, ?_⟩
      · intro i s hc; cases hc
      · intro _ i s hc
        injection hc with hc
        injection hc with hc1 hc2
        subst hc1
        exact hg
      · intro _ hc; cases hc
      · intro hnd
        rw [hg]
        simp only [List.map_set]
        exact nodup_set_of_not_mem _ j0 _ hnd hfreshIp
  · have hg : getOrCreateUserState clients ip mask = ((i0 + 1, s0), clients) := by
      unfold getOrCreateUserState
      rw [h1]
    refine ⟨by rw [hg]; exact Nat.le_add_left 1 i0, ?_, ?_, ?_, ?_⟩
    · intro i s hc
      injection hc with hc
      injection hc with hc1 hc2
      subst hc1; subst hc2
      exact hg
    · intro hc; cases hc
    · intro hc; cases hc
    · intro hnd; rw [hg]; exact hnd

/-- C9 witness: a vacated slot (connections 0, masked ip [1]) is reused by
a connection from the different masked ip [2]: index 1, slot overwritten. -/
theorem c9_get_or_create_user_state_witness :
    getOrCreateUserState [⟨[1], 0⟩] [2] [255] = ((1, ⟨[2], 0⟩), [⟨[2], 0⟩]) := by
  have h := (c9_get_or_create_user_state [⟨[1], 0⟩] [2] [255]).2.2.1
    (by rfl) 0 ⟨[1], 0⟩ (by rfl)
  simpa using h

/-! Decimal rendering lemmas. -/

/-- Every byte produced by decRenderAux is a decimal digit. -/
theorem decRenderAux_digits :
    ∀ (fuel n : Nat), ∀ d ∈ decRenderAux fuel n, isDecDigit d := by
  intro fuel
  induction fuel with
  | zero => intro n d hd; cases hd
  | succ f ih =>
    intro n d hd
    by_cases hn : n = 0
    · simp [decRenderAux, hn] at hd
    · simp only [decRenderAux, hn, if_false, reduceIte] at hd
      rcases List.mem_cons.mp hd with rfl | hd2
      · simp only [isDecDigit, decide_eq_true_eq]
        constructor <;> omega
      · exact ih (n / 10) d hd2

/-- Every byte of decRender is a decimal digit. -/
theorem decRender_digits (n : Nat) : ∀ d ∈ decRender n, isDecDigit d := by
  intro d hd
  unfold decRender at hd
  by_cases hn : n = 0
  · simp [hn] at hd
    simp [hd, isDecDigit]
  · simp only [hn, if_false, reduceIte, List.mem_reverse] at hd
    exact decRenderAux_digits n n d hd

/-- decRender never yields the empty string. -/
theorem decRender_ne_nil (n : Nat) : decRender n ≠ [] := by
  unfold decRender
  by_cases hn : n = 0
  · simp [hn]
  · simp only [hn, if_false, reduceIte]
    intro hc
    rw [List.reverse_eq_nil_iff] at hc
    obtain ⟨f, hf⟩ : ∃ f, n = f + 1 := ⟨n - 1, by omega⟩
    rw [show decRenderAux n n = decRenderAux ((n - 1) + 1) n by
      congr 1; omega] at hc
    simp [decRenderAux, hn] at hc

/-- Little-endian value of the digits produced by decRenderAux. -/
theorem valLE_decRenderAux :
    ∀ (fuel n : Nat), n ≤ fuel → valLE (decRenderAux fuel n) = n := by
  intro fuel
  induction fuel with
  | zero => intro n h; interval_cases n; rfl
  | succ f ih =>
    intro n h
    by_cases hn : n = 0
    · simp [decRenderAux, hn, valLE]
    · simp only [decRenderAux, hn, if_false, reduceIte, valLE]
      have hrec : valLE (decRenderAux f (n / 10)) = n / 10 := by
        refine ih (n / 10) ?_
        have : n / 10 < n := Nat.div_lt_self (by omega) (by omega)
        omega
      rw [hrec]
      omega

/-- The big-endian fold over a reversed digit list computes valLE. -/
theorem decValFrom_reverse :
    ∀ (l : List Nat) (a : Nat),
      decValFrom a l.reverse = a * 10 ^ l.length + valLE l := by
  intro l
  induction l with
  | nil => intro a; simp [decValFrom, valLE]
  | cons d t ih =>
    intro a
    have happ : decValFrom a (t.reverse ++ [d]) =
        decValFrom a t.reverse * 10 + (d - 48) := by
      unfold decValFrom
      rw [List.foldl_append]
      rfl
    simp only [List.reverse_cons, happ, ih a, valLE, List.length_cons]
    ring

/-- decRender is correct for decDigitsVal. -/
theorem decDigitsVal_decRender (n : Nat) : decDigitsVal (decRender n) = n := by
  unfold decRender
  by_cases hn : n = 0
  · simp [hn, decDigitsVal]
  · simp only [hn, if_false, reduceIte]
    have h1 : decDigitsVal (decRenderAux n n).reverse =
        decValFrom 0 (decRenderAux n n).reverse := rfl
    rw [h1, decValFrom_reverse, valLE_decRenderAux n n (le_refl n)]
    simp

/-! Hex rendering lemmas. -/

/-- Value of a rendered nibble under the lookup table. -/
theorem hexLookup_nibble : ∀ d < 16,
    hexLookup (if d < 10 then d + 48 else d + 87) = d := by decide

/-- Every nibble is below 16. -/
theorem hexNibbles_lt (k v : Nat) : ∀ d ∈ hexNibbles k v, d < 16 := by
  intro d hd
  unfold hexNibbles at hd
  rcases List.mem_map.mp hd with ⟨i, _, hi⟩
  rw [← hi]
  exact Nat.mod_lt _ (by omega)

/-- hexRender produces k bytes. -/
theorem hexRender_length (k v : Nat) : (hexRender k v).length = k := by
  simp [hexRender, hexNibbles]

/-- Bytes of hexRender are accepted hex digits in the printable range. -/
theorem hexRender_digits (k v : Nat) :
    ∀ b ∈ hexRender k v, hexLookup b ≠ INVALID_HEX_DIGIT ∧ 48 ≤ b ∧ b ≤ 102 := by
  intro b hb
  unfold hexRender at hb
  rcases List.mem_map.mp hb with ⟨d, hd, hdb⟩
  have hlt : d < 16 := hexNibbles_lt k v d hd
  subst hdb
  refine ⟨?_, ?_⟩
  · rw [hexLookup_nibble d hlt]
    unfold INVALID_HEX_DIGIT
    omega
  · by_cases h10 : d < 10 <;> simp [h10] <;> omega

/-- hexValFrom only grows from its accumulator. -/
theorem hexValFrom_mono : ∀ (ds : List Nat) (a : Nat), a ≤ hexValFrom a ds := by
  intro ds
  induction ds with
  | nil => intro a; exact Nat.le_refl a
  | cons d t ih =>
    intro a
    calc a ≤ a * 16 + hexLookup d := by omega
    _ ≤ hexValFrom (a * 16 + hexLookup d) t := ih _

/-- Single accepted digit step of the hex color loop. -/
theorem consumeHexLoop_step {len v d : Nat} {rest : List Nat} (h9 : ¬9 ≤ len)
    (hinval : hexLookup d ≠ INVALID_HEX_DIGIT) (h10 : d ≠ 10) :
    consumeHexLoop len v (d :: rest) =
      consumeHexLoop (len + 1) ((v * 16 + hexLookup d) % 2 ^ 32) rest := by
  simp [consumeHexLoop, h9, hinval, h10]

/-- The hex color loop consumes a run of hex digits, folding base 16. -/
theorem consumeHexLoop_digits :
    ∀ (ds : List Nat) (len v : Nat) (rest : List Nat),
      (∀ b ∈ ds, hexLookup b ≠ INVALID_HEX_DIGIT ∧ b ≠ 10) →
      len + ds.length ≤ 8 → hexValFrom v ds < 2 ^ 32 →
      consumeHexLoop len v (ds ++ 10 :: rest) =
        consumeHexLoop (len + ds.length) (hexValFrom v ds) (10 :: rest) := by
  intro ds
  induction ds with
  | nil => intro len v rest _ _ _; simp [hexValFrom]
  | cons d t ih =>
    intro len v rest hds hlen hval
    have hd := hds d (List.mem_cons_self d t)
    have hstep : hexValFrom v (d :: t) = hexValFrom (v * 16 + hexLookup d) t := rfl
    have hmod : (v * 16 + hexLookup d) % 2 ^ 32 = v * 16 + hexLookup d := by
      have := hexValFrom_mono t (v * 16 + hexLookup d)
      rw [hstep] at hval
      exact Nat.mod_eq_of_lt (by omega)
    have h9 : ¬9 ≤ len := by
      simp only [List.length_cons] at hlen
      omega
    rw [List.cons_append, consumeHexLoop_step h9 hd.1 hd.2, hmod,
      ih (len + 1) (v * 16 + hexLookup d) rest
        (fun b hb => hds b (List.mem_cons_of_mem d hb))
        (by simp only [List.length_cons] at hlen ⊢; omega)
        (by rw [← hstep]; exact hval)]
    rw [← hstep]
    congr 1
    simp only [List.length_cons]
    omega

/-- Base-16 fold of the nibble list of v. -/
theorem fold_hexNibbles :
    ∀ (k a v : Nat),
      (hexNibbles k v).foldl (fun x d => x * 16 + d) a = a * 16 ^ k + v % 16 ^ k := by
  intro k
  induction k with
  | zero => intro a v; simp [hexNibbles, Nat.mod_one]
  | succ j ih =>
    intro a v
    have hsplit : hexNibbles (j + 1) v = (v / 16 ^ j % 16) :: hexNibbles j v := by
      unfold hexNibbles
      rw [List.range_succ, List.reverse_append]
      rfl
    rw [hsplit]
    show (hexNibbles j v).foldl (fun x d => x * 16 + d)
      (a * 16 + v / 16 ^ j % 16) = _
    rw [ih (a * 16 + v / 16 ^ j % 16) v]
    have hmm : v % (16 ^ j * 16) = v % 16 ^ j + 16 ^ j * (v / 16 ^ j % 16) :=
      Nat.mod_mul
    rw [pow_succ]
    rw [hmm]
    ring

/-- hexValFrom over a hex rendering recovers the value. -/
theorem hexValFrom_hexRender (k v : Nat) (hv : v < 16 ^ k) :
    hexValFrom 0 (hexRender k v) = v := by
  unfold hexValFrom hexRender
  rw [List.foldl_map]
  have hcongr : ∀ (l : List Nat), (∀ d ∈ l, d < 16) → ∀ (a : Nat),
      l.foldl
        (fun x d => x * 16 + hexLookup (if d < 10 then d + 48 else d + 87)) a =
      l.foldl (fun x d => x * 16 + d) a := by
    intro l
    induction l with
    | nil => intro _ a; rfl
    | cons d t iht =>
      intro hl a
      simp only [List.foldl_cons]
      rw [hexLookup_nibble d (hl d (List.mem_cons_self d t))]
      exact iht (fun e he => hl e (List.mem_cons_of_mem d he)) _
  rw [hcongr (hexNibbles k v) (hexNibbles_lt k v) 0, fold_hexNibbles k 0 v]
  simpa using Nat.mod_eq_of_lt hv

/-! Stream parsing of canonical lines. -/

/-- consume_compare does not advance on a mismatch. -/
theorem consumeCompare_mismatch {verb bs : List Nat}
    (hlen : verb.length ≤ bs.length) (hne : bs.take verb.length ≠ verb) :
    consumeCompare verb bs = .ok (false, bs) := by
  simp [consumeCompare, hlen, hne]

/-- consume_whitespace leaves a non-space head alone. -/
theorem consumeWhitespace_cons {b : Nat} (rest : List Nat) (hb : b ≠ 32) :
    consumeWhitespace (b :: rest) = .ok (b :: rest) := by
  simp [consumeWhitespace, hb]

/-- consume_whitespace skips a single leading space. -/
theorem consumeWhitespace_space (rest : List Nat) :
    consumeWhitespace (32 :: rest) = consumeWhitespace rest := by
  simp [consumeWhitespace]

/-- consume_whitespace stops at the leading digit of a decimal rendering. -/
theorem consumeWhitespace_decRender (n : Nat) (suffix : List Nat) :
    consumeWhitespace (decRender n ++ suffix) = .ok (decRender n ++ suffix) := by
  rcases hsh : decRender n with _ | ⟨d, t⟩
  · exact absurd hsh (decRender_ne_nil n)
  · have hd : isDecDigit d := by
      refine decRender_digits n d ?_
      rw [hsh]; exact List.mem_cons_self d t
    have : d ≠ 32 := by
      simp only [isDecDigit, decide_eq_true_eq] at hd
      omega
    rw [List.cons_append]
    exact consumeWhitespace_cons (t ++ suffix) this

/-- The decimal consumer over a decimal rendering followed by a
terminator. -/
theorem consumeDecimal_decRender (terms : List Nat) (n t : Nat)
    (rest : List Nat) (hterm : ∀ d, isDecDigit d → d ∉ terms) (ht : t ∈ terms)
    (hn : n < 2 ^ 32) :
    consumeDecimalU32Until terms 0 (decRender n ++ t :: rest) =
      .ok ((n, t), rest) := by
  have hval : decValFrom 0 (decRender n) = n := decDigitsVal_decRender n
  have := consumeDecimal_digits terms (decRender n) t rest (decRender_digits n)
    (fun d hd => hterm d (decRender_digits n d hd)) ht 0 (by rw [hval]; exact hn)
  rw [this, hval]

/-- consume_compare recognizes PX at the head. -/
theorem consumeCompare_px_true (X : List Nat) :
    consumeCompare PX_VERB (80 :: 88 :: X) = .ok (true, X) := by
  have := consumeCompare_prefix PX_VERB X
  simpa [PX_VERB] using this

/-- consume_compare recognizes OFFSET at the head. -/
theorem consumeCompare_offset_true (X : List Nat) :
    consumeCompare OFFSET_VERB (79 :: 70 :: 70 :: 83 :: 69 :: 84 :: X) =
      .ok (true, X) := by
  have := consumeCompare_prefix OFFSET_VERB X
  simpa [OFFSET_VERB] using this

/-- consume_compare rejects PX when the first two bytes differ. -/
theorem consumeCompare_px_false (a b : Nat) (X : List Nat)
    (h : a ≠ 80 ∨ b ≠ 88) :
    consumeCompare PX_VERB (a :: b :: X) = .ok (false, a :: b :: X) := by
  refine consumeCompare_mismatch (by simp only [PX_VERB, List.length_cons, List.length_append, List.length_nil]; omega) ?_
  show (a :: b :: X).take 2 ≠ PX_VERB
  simp only [List.take_succ_cons, List.take_zero, PX_VERB]
  intro hc
  injection hc with h1 hc
  injection hc with h2 _
  rcases h with h | h
  · exact h h1
  · exact h h2

/-- The hex color consumer on a 6-digit rendering followed by newline. -/
theorem consumeHexColor_hex6 (c : Nat) (hc : c < 16 ^ 6) (rest : List Nat) :
    consumeHexadecimalColorUntilNewLine (hexRender 6 c ++ 10 :: rest) =
      .ok (Bgra.fromRgb c, rest) := by
  have hloop := consumeHexLoop_digits (hexRender 6 c) 0 0 rest
    (fun b hb => by
      obtain ⟨h1, h2, h3⟩ := hexRender_digits 6 c b hb
      exact ⟨h1, by omega⟩)
    (by rw [hexRender_length]; omega) (by
      rw [show hexValFrom 0 (hexRender 6 c) = c from hexValFrom_hexRender 6 c hc]
      calc c < 16 ^ 6 := hc
      _ < 2 ^ 32 := by norm_num)
  rcases hsh : hexRender 6 c with _ | ⟨b0, bs0⟩
  · have := hexRender_length 6 c
    rw [hsh] at this
    simp at this
  · rw [← hsh]
    have hne : hexRender 6 c ++ 10 :: rest ≠ [] := by
      rw [hsh]; simp
    unfold consumeHexadecimalColorUntilNewLine
    rw [hsh]
    rw [← hsh]
    rw [show (match hexRender 6 c ++ 10 :: rest with
      | [] => (.error .moreDataRequired :
          Except CommandRingError (Bgra × List Nat))
      | _ => consumeHexLoop 0 0 (hexRender 6 c ++ 10 :: rest)) =
        consumeHexLoop 0 0 (hexRender 6 c ++ 10 :: rest) by
      rw [hsh]; rfl]
    rw [hloop, hexRender_length, hexValFrom_hexRender 6 c hc]
    rfl

/-- The hex color consumer on a 2-digit rendering followed by newline. -/
theorem consumeHexColor_hex2 (w : Nat) (hw : w < 16 ^ 2) (rest : List Nat) :
    consumeHexadecimalColorUntilNewLine (hexRender 2 w ++ 10 :: rest) =
      .ok (Bgra.fromBw w, rest) := by
  have hloop := consumeHexLoop_digits (hexRender 2 w) 0 0 rest
    (fun b hb => by
      obtain ⟨h1, h2, h3⟩ := hexRender_digits 2 w b hb
      exact ⟨h1, by omega⟩)
    (by rw [hexRender_length]; omega) (by
      rw [show hexValFrom 0 (hexRender 2 w) = w from hexValFrom_hexRender 2 w hw]
      calc w < 16 ^ 2 := hw
      _ < 2 ^ 32 := by norm_num)
  rcases hsh : hexRender 2 w with _ | ⟨b0, bs0⟩
  · have := hexRender_length 2 w
    rw [hsh] at this
    simp at this
  · rw [← hsh]
    unfold consumeHexadecimalColorUntilNewLine
    rw [show (match hexRender 2 w ++ 10 :: rest with
      | [] => (.error .moreDataRequired :
          Except CommandRingError (Bgra × List Nat))
      | _ => consumeHexLoop 0 0 (hexRender 2 w ++ 10 :: rest)) =
        consumeHexLoop 0 0 (hexRender 2 w ++ 10 :: rest) by
      rw [hsh]; rfl]
    rw [hloop, hexRender_length, hexValFrom_hexRender 2 w hw]
    have hmod : w % 256 = w := Nat.mod_eq_of_lt (by omega)
    simp [consumeHexLoop, hmod]

/-- Digits never collide with the coordinate terminator sets in use. -/
theorem decDigit_not_term : ∀ d, isDecDigit d →
    d ∉ ([32] : List Nat) ∧ d ∉ ([32, 10] : List Nat) ∧ d ∉ ([10] : List Nat) := by
  intro d hd
  simp only [isDecDigit, decide_eq_true_eq] at hd
  refine ⟨?_, ?_, ?_⟩ <;> simp <;> omega

/-- Every canonical line, followed by anything, is parsed by the streaming
parser to its denotation, consuming exactly the line. -/
theorem stream_parse_line (l : CanonLine) (hwf : l.wf) (rest : List Nat) :
    readNextCommandInner (l.render ++ rest) = .ok (l.denote, rest) := by
  cases l with
  | help =>
    show readNextCommandInner (72 :: 69 :: 76 :: 80 :: 10 :: rest) = _
    have hPX : consumeCompare PX_VERB (72 :: 69 :: 76 :: 80 :: 10 :: rest) =
        .ok (false, 72 :: 69 :: 76 :: 80 :: 10 :: rest) :=
      consumeCompare_px_false 72 69 _ (Or.inl (by omega))
    have hSZ : consumeCompare SIZE_VERB (72 :: 69 :: 76 :: 80 :: 10 :: rest) =
        .ok (false, 72 :: 69 :: 76 :: 80 :: 10 :: rest) := by
      refine consumeCompare_mismatch (by simp only [SIZE_VERB, List.length_cons, List.length_append, List.length_nil]; omega) ?_
      simp [SIZE_VERB, List.take_succ_cons]
    have hHP : consumeCompare HELP_VERB (72 :: 69 :: 76 :: 80 :: 10 :: rest) =
        .ok (true, rest) := by
      have := consumeCompare_prefix HELP_VERB rest
      simpa [HELP_VERB] using this
    simp [readNextCommandInner, hPX, hSZ, hHP, CanonLine.denote]
  | size =>
    show readNextCommandInner (83 :: 73 :: 90 :: 69 :: 10 :: rest) = _
    have hPX : consumeCompare PX_VERB (83 :: 73 :: 90 :: 69 :: 10 :: rest) =
        .ok (false, 83 :: 73 :: 90 :: 69 :: 10 :: rest) :=
      consumeCompare_px_false 83 73 _ (Or.inl (by omega))
    have hSZ : consumeCompare SIZE_VERB (83 :: 73 :: 90 :: 69 :: 10 :: rest) =
        .ok (true, rest) := by
      have := consumeCompare_prefix SIZE_VERB rest
      simpa [SIZE_VERB] using this
    simp [readNextCommandInner, hPX, hSZ, CanonLine.denote]
  | offset x y =>
    obtain ⟨hx, hy⟩ := hwf
    simp only [CanonLine.render, CanonLine.body, CanonLine.denote,
      List.cons_append, List.append_assoc, List.nil_append]
    have hPX : consumeCompare PX_VERB (79 :: 70 :: 70 :: 83 :: 69 :: 84 :: 32 ::
        (decRender x ++ 32 :: (decRender y ++ 10 :: rest))) =
        .ok (false, 79 :: 70 :: 70 :: 83 :: 69 :: 84 :: 32 ::
          (decRender x ++ 32 :: (decRender y ++ 10 :: rest))) :=
      consumeCompare_px_false 79 70 _ (Or.inl (by omega))
    have hSZ : consumeCompare SIZE_VERB (79 :: 70 :: 70 :: 83 :: 69 :: 84 :: 32 ::
        (decRender x ++ 32 :: (decRender y ++ 10 :: rest))) =
        .ok (false, 79 :: 70 :: 70 :: 83 :: 69 :: 84 :: 32 ::
          (decRender x ++ 32 :: (decRender y ++ 10 :: rest))) := by
      refine consumeCompare_mismatch (by simp only [SIZE_VERB, List.length_cons, List.length_append, List.length_nil]; omega) ?_
      simp [SIZE_VERB, List.take_succ_cons]
    have hHP : consumeCompare HELP_VERB (79 :: 70 :: 70 :: 83 :: 69 :: 84 :: 32 ::
        (decRender x ++ 32 :: (decRender y ++ 10 :: rest))) =
        .ok (false, 79 :: 70 :: 70 :: 83 :: 69 :: 84 :: 32 ::
          (decRender x ++ 32 :: (decRender y ++ 10 :: rest))) := by
      refine consumeCompare_mismatch (by simp only [HELP_VERB, List.length_cons, List.length_append, List.length_nil]; omega) ?_
      simp [HELP_VERB, List.take_succ_cons]
    have hOF := consumeCompare_offset_true
      (32 :: (decRender x ++ 32 :: (decRender y ++ 10 :: rest)))
    have hw1 : consumeWhitespace (32 ::
        (decRender x ++ 32 :: (decRender y ++ 10 :: rest))) =
        .ok (decRender x ++ 32 :: (decRender y ++ 10 :: rest)) := by
      rw [consumeWhitespace_space, consumeWhitespace_decRender]
    have hd1 : consumeDecimalU32Until [32] 0
        (decRender x ++ 32 :: (decRender y ++ 10 :: rest)) =
        .ok ((x, 32), decRender y ++ 10 :: rest) :=
      consumeDecimal_decRender [32] x 32 _
        (fun d hd => (decDigit_not_term d hd).1) (by simp) (by omega)
    have hw2 : consumeWhitespace (decRender y ++ 10 :: rest) =
        .ok (decRender y ++ 10 :: rest) := consumeWhitespace_decRender y _
    have hd2 : consumeDecimalU32Until [10] 0 (decRender y ++ 10 :: rest) =
        .ok ((y, 10), rest) :=
      consumeDecimal_decRender [10] y 10 _
        (fun d hd => (decDigit_not_term d hd).2.2) (by simp) (by omega)
    simp [readNextCommandInner, hPX, hSZ, hHP, hOF, hw1, hd1, hw2, hd2,
      CanonLine.denote]
  | getPixel x y =>
    obtain ⟨hx, hy⟩ := hwf
    simp only [CanonLine.render, CanonLine.body, CanonLine.denote,
      List.cons_append, List.append_assoc, List.nil_append]
    have hPX := consumeCompare_px_true
      (32 :: (decRender x ++ 32 :: (decRender y ++ 10 :: rest)))
    have hw1 : consumeWhitespace (32 ::
        (decRender x ++ 32 :: (decRender y ++ 10 :: rest))) =
        .ok (decRender x ++ 32 :: (decRender y ++ 10 :: rest)) := by
      rw [consumeWhitespace_space, consumeWhitespace_decRender]
    have hd1 : consumeDecimalU32Until [32] 0
        (decRender x ++ 32 :: (decRender y ++ 10 :: rest)) =
        .ok ((x, 32), decRender y ++ 10 :: rest) :=
      consumeDecimal_decRender [32] x 32 _
        (fun d hd => (decDigit_not_term d hd).1) (by simp) (by omega)
    have hw2 : consumeWhitespace (decRender y ++ 10 :: rest) =
        .ok (decRender y ++ 10 :: rest) := consumeWhitespace_decRender y _
    have hd2 : consumeDecimalU32Until [32, 10] 0 (decRender y ++ 10 :: rest) =
        .ok ((y, 10), rest) :=
      consumeDecimal_decRender [32, 10] y 10 _
        (fun d hd => (decDigit_not_term d hd).2.1) (by simp) (by omega)
    simp [readNextCommandInner, hPX, hw1, hd1, hw2, hd2, CanonLine.denote]
  | setPixelRgb x y c =>
    obtain ⟨hx, hy, hc⟩ := hwf
    simp only [CanonLine.render, CanonLine.body, CanonLine.denote,
      List.cons_append, List.append_assoc, List.nil_append]
    have hPX := consumeCompare_px_true (32 :: (decRender x ++ 32 ::
      (decRender y ++ 32 :: (hexRender 6 c ++ 10 :: rest))))
    have hw1 : consumeWhitespace (32 :: (decRender x ++ 32 ::
        (decRender y ++ 32 :: (hexRender 6 c ++ 10 :: rest)))) =
        .ok (decRender x ++ 32 ::
          (decRender y ++ 32 :: (hexRender 6 c ++ 10 :: rest))) := by
      rw [consumeWhitespace_space, consumeWhitespace_decRender]
    have hd1 : consumeDecimalU32Until [32] 0 (decRender x ++ 32 ::
        (decRender y ++ 32 :: (hexRender 6 c ++ 10 :: rest))) =
        .ok ((x, 32), decRender y ++ 32 :: (hexRender 6 c ++ 10 :: rest)) :=
      consumeDecimal_decRender [32] x 32 _
        (fun d hd => (decDigit_not_term d hd).1) (by simp) (by omega)
    have hw2 : consumeWhitespace (decRender y ++ 32 ::
        (hexRender 6 c ++ 10 :: rest)) =
        .ok (decRender y ++ 32 :: (hexRender 6 c ++ 10 :: rest)) :=
      consumeWhitespace_decRender y _
    have hd2 : consumeDecimalU32Until [32, 10] 0 (decRender y ++ 32 ::
        (hexRender 6 c ++ 10 :: rest)) =
        .ok ((y, 32), hexRender 6 c ++ 10 :: rest) :=
      consumeDecimal_decRender [32, 10] y 32 _
        (fun d hd => (decDigit_not_term d hd).2.1) (by simp) (by omega)
    have hcol := consumeHexColor_hex6 c hc rest
    simp [readNextCommandInner, hPX, hw1, hd1, hw2, hd2, hcol, CanonLine.denote]
  | setPixelBw x y w =>
    obtain ⟨hx, hy, hw⟩ := hwf
    simp only [CanonLine.render, CanonLine.body, CanonLine.denote,
      List.cons_append, List.append_assoc, List.nil_append]
    have hPX := consumeCompare_px_true (32 :: (decRender x ++ 32 ::
      (decRender y ++ 32 :: (hexRender 2 w ++ 10 :: rest))))
    have hw1 : consumeWhitespace (32 :: (decRender x ++ 32 ::
        (decRender y ++ 32 :: (hexRender 2 w ++ 10 :: rest)))) =
        .ok (decRender x ++ 32 ::
          (decRender y ++ 32 :: (hexRender 2 w ++ 10 :: rest))) := by
      rw [consumeWhitespace_space, consumeWhitespace_decRender]
    have hd1 : consumeDecimalU32Until [32] 0 (decRender x ++ 32 ::
        (decRender y ++ 32 :: (hexRender 2 w ++ 10 :: rest))) =
        .ok ((x, 32), decRender y ++ 32 :: (hexRender 2 w ++ 10 :: rest)) :=
      consumeDecimal_decRender [32] x 32 _
        (fun d hd => (decDigit_not_term d hd).1) (by simp) (by omega)
    have hw2 : consumeWhitespace (decRender y ++ 32 ::
        (hexRender 2 w ++ 10 :: rest)) =
        .ok (decRender y ++ 32 :: (hexRender 2 w ++ 10 :: rest)) :=
      consumeWhitespace_decRender y _
    have hd2 : consumeDecimalU32Until [32, 10] 0 (decRender y ++ 32 ::
        (hexRender 2 w ++ 10 :: rest)) =
        .ok ((y, 32), hexRender 2 w ++ 10 :: rest) :=
      consumeDecimal_decRender [32, 10] y 32 _
        (fun d hd => (decDigit_not_term d hd).2.1) (by simp) (by omega)
    have hcol := consumeHexColor_hex2 w hw rest
    simp [readNextCommandInner, hPX, hw1, hd1, hw2, hd2, hcol, CanonLine.denote]

/-! Naive parser on canonical lines. -/

/-- split keeps a separator-free list whole. -/
theorem splitOnByte_not_mem {sep : Nat} :
    ∀ {l : List Nat}, sep ∉ l → splitOnByte sep l = [l] := by
  intro l
  induction l with
  | nil => intro _; rfl
  | cons b t ih =>
    intro h
    have hb : ¬b = sep := fun hc => h (by rw [hc]; exact List.mem_cons_self _ _)
    have ht := ih (fun hc => h (List.mem_cons_of_mem _ hc))
    simp only [splitOnByte, hb, if_false, reduceIte, ht]

/-- split peels one separator-free piece before a separator. -/
theorem splitOnByte_append {sep : Nat} :
    ∀ {a : List Nat} (r : List Nat), sep ∉ a →
      splitOnByte sep (a ++ sep :: r) = a :: splitOnByte sep r := by
  intro a
  induction a with
  | nil => intro r _; simp [splitOnByte]
  | cons b t ih =>
    intro r h
    have hb : ¬b = sep := fun hc => h (by rw [hc]; exact List.mem_cons_self _ _)
    have ht := ih r (fun hc => h (List.mem_cons_of_mem _ hc))
    simp only [List.cons_append, splitOnByte, hb, if_false, reduceIte,
      List.append_eq, ht]

/-- Bytes of decRender lie in the digit range. -/
theorem decRender_byte_range (n : Nat) :
    ∀ d ∈ decRender n, 48 ≤ d ∧ d ≤ 57 := by
  intro d hd
  have := decRender_digits n d hd
  simpa [isDecDigit] using this

/-- Bytes of hexRender lie in the printable range above 47. -/
theorem hexRender_byte_range (k v : Nat) :
    ∀ b ∈ hexRender k v, 48 ≤ b ∧ b ≤ 102 := by
  intro b hb
  exact (hexRender_digits k v b hb).2

/-- The last byte of a nonempty list all of whose bytes exceed 47 is not
the carriage return, so stripTrailingCR is the identity there. -/
theorem stripTrailingCR_of_high (l : List Nat) (hne : l ≠ [])
    (h : ∀ b ∈ l, 48 ≤ b) : stripTrailingCR l = l := by
  unfold stripTrailingCR
  rw [List.getLast?_eq_getLast l hne]
  have := h _ (List.getLast_mem hne)
  have hno : ¬(l.getLast hne = 13) := by omega
  simp [hno]

/-- u16 parsing of a decimal rendering. -/
theorem parseU16_decRender (n : Nat) (h : n < 2 ^ 16) :
    parseU16 (decRender n) = .ok n := by
  have hne := decRender_ne_nil n
  have hall : (decRender n).all isDecDigit = true :=
    List.all_eq_true.mpr (decRender_digits n)
  have hhead : ¬((decRender n).head? = some 43) := by
    rcases hsh : decRender n with _ | ⟨d, t⟩
    · exact absurd hsh hne
    · have hd : 48 ≤ d ∧ d ≤ 57 := decRender_byte_range n d
        (by rw [hsh]; exact List.mem_cons_self d t)
      simp only [List.head?_cons]
      intro hc
      injection hc with hc
      omega
  simp only [parseU16]
  rw [if_neg hhead, if_pos ⟨hne, hall⟩,
    if_pos (by rw [decDigitsVal_decRender]; exact h), decDigitsVal_decRender]

/-- u32 hex parsing of a fixed-width hex rendering (width at most 8). -/
theorem parseHexU32_hexRender (k v : Nat) (hk : k ≠ 0) (hk8 : k ≤ 8)
    (hv : v < 16 ^ k) : parseHexU32 (hexRender k v) = .ok v := by
  have hne : hexRender k v ≠ [] := by
    intro hc
    have := hexRender_length k v
    rw [hc] at this
    simp at this
    omega
  have hall : (hexRender k v).all isHexDigit = true := by
    refine List.all_eq_true.mpr ?_
    intro b hb
    have := (hexRender_digits k v b hb).1
    simpa [isHexDigit] using this
  have hhead : ¬((hexRender k v).head? = some 43) := by
    rcases hsh : hexRender k v with _ | ⟨d, t⟩
    · exact absurd hsh hne
    · have hd : 48 ≤ d ∧ d ≤ 102 := hexRender_byte_range k v d
        (by rw [hsh]; exact List.mem_cons_self d t)
      simp only [List.head?_cons]
      intro hc
      injection hc with hc
      omega
  have hval : hexDigitsVal (hexRender k v) = v := hexValFrom_hexRender k v hv
  have hlt : hexDigitsVal (hexRender k v) < 2 ^ 32 := by
    rw [hval]
    calc v < 16 ^ k := hv
    _ ≤ 16 ^ 8 := Nat.pow_le_pow_right (by omega) hk8
    _ = 2 ^ 32 := by norm_num
  simp only [parseHexU32]
  rw [if_neg hhead, if_pos ⟨hne, hall⟩, if_pos hlt, hval]

/-- decRender contains no space byte. -/
theorem decRender_not_mem_32 (n : Nat) : 32 ∉ decRender n := by
  intro h
  have := decRender_byte_range n 32 h
  omega

/-- hexRender contains no space byte. -/
theorem hexRender_not_mem_32 (k v : Nat) : 32 ∉ hexRender k v := by
  intro h
  have := hexRender_byte_range k v 32 h
  omega

/-- decRender contains no newline byte. -/
theorem decRender_not_mem_10 (n : Nat) : 10 ∉ decRender n := by
  intro h
  have := decRender_byte_range n 10 h
  omega

/-- hexRender contains no newline byte. -/
theorem hexRender_not_mem_10 (k v : Nat) : 10 ∉ hexRender k v := by
  intro h
  have := hexRender_byte_range k v 10 h
  omega

/-- No canonical line body contains a newline byte. -/
theorem body_not_mem_10 (l : CanonLine) : 10 ∉ l.body := by
  cases l with
  | help => decide
  | size => decide
  | offset x y =>
    simp only [CanonLine.body, List.mem_cons, List.mem_append]
    push_neg
    refine ⟨by omega, by omega, by omega, by omega, by omega, by omega, by omega,
      decRender_not_mem_10 x, by omega, decRender_not_mem_10 y⟩
  | getPixel x y =>
    simp only [CanonLine.body, List.mem_cons, List.mem_append]
    push_neg
    refine ⟨by omega, by omega, by omega, decRender_not_mem_10 x, by omega,
      decRender_not_mem_10 y⟩
  | setPixelRgb x y c =>
    simp only [CanonLine.body, List.mem_cons, List.mem_append]
    push_neg
    refine ⟨by omega, by omega, by omega, decRender_not_mem_10 x, by omega,
      decRender_not_mem_10 y, by omega, hexRender_not_mem_10 6 c⟩
  | setPixelBw x y w =>
    simp only [CanonLine.body, List.mem_cons, List.mem_append]
    push_neg
    refine ⟨by omega, by omega, by omega, decRender_not_mem_10 x, by omega,
      decRender_not_mem_10 y, by omega, hexRender_not_mem_10 2 w⟩

/-- stripTrailingCR is the identity when the last byte is not CR. -/
theorem stripTrailingCR_eq_of_ne {l : List Nat} (h : l.getLast? ≠ some 13) :
    stripTrailingCR l = l := by
  unfold stripTrailingCR
  simp [h]

/-- Last element of a list ending in a nonempty suffix after a space. -/
theorem getLast_sep (a b : List Nat) (hb : b ≠ []) :
    (a ++ 32 :: b).getLast? = b.getLast? := by
  rw [List.getLast?_append_of_ne_nil a (by simp), ← List.singleton_append,
    List.getLast?_append_of_ne_nil [32] hb]

/-- The last byte of a decimal rendering rules out a trailing CR. -/
theorem getLast_decRender_ne (n : Nat) : (decRender n).getLast? ≠ some 13 := by
  rw [List.getLast?_eq_getLast _ (decRender_ne_nil n)]
  have := decRender_byte_range n _ (List.getLast_mem (decRender_ne_nil n))
  intro hc
  injection hc with hc
  omega

/-- The last byte of a hex rendering rules out a trailing CR. -/
theorem getLast_hexRender_ne (k v : Nat) (hk : k ≠ 0) :
    (hexRender k v).getLast? ≠ some 13 := by
  have hne : hexRender k v ≠ [] := by
    intro hc
    have := hexRender_length k v
    rw [hc] at this
    simp at this
    omega
  rw [List.getLast?_eq_getLast _ hne]
  have := hexRender_byte_range k v _ (List.getLast_mem hne)
  intro hc
  injection hc with hc
  omega

/-- The naive parser maps every canonical line body to its denotation. -/
theorem naiveLine_body (l : CanonLine) (hwf : l.wf) :
    naiveLine l.body = .ok (some l.denote) := by
  cases l with
  | help => rfl
  | size => rfl
  | offset x y =>
    obtain ⟨hx, hy⟩ := hwf
    have hstrip : stripTrailingCR (decRender x ++ 32 :: decRender y) =
        decRender x ++ 32 :: decRender y := by
      apply stripTrailingCR_eq_of_ne
      rw [getLast_sep _ _ (decRender_ne_nil y)]
      exact getLast_decRender_ne y
    have hsplit : splitOnByte 32 (decRender x ++ 32 :: decRender y) =
        [decRender x, decRender y] := by
      rw [splitOnByte_append _ (decRender_not_mem_32 x),
        splitOnByte_not_mem (decRender_not_mem_32 y)]
    simp only [CanonLine.body]
    rw [naiveLine.eq_def]
    simp only [hstrip, hsplit, parseU16_decRender x hx, parseU16_decRender y hy,
      CanonLine.denote]
  | getPixel x y =>
    obtain ⟨hx, hy⟩ := hwf
    have hstrip : stripTrailingCR (decRender x ++ 32 :: decRender y) =
        decRender x ++ 32 :: decRender y := by
      apply stripTrailingCR_eq_of_ne
      rw [getLast_sep _ _ (decRender_ne_nil y)]
      exact getLast_decRender_ne y
    have hsplit : splitOnByte 32 (decRender x ++ 32 :: decRender y) =
        [decRender x, decRender y] := by
      rw [splitOnByte_append _ (decRender_not_mem_32 x),
        splitOnByte_not_mem (decRender_not_mem_32 y)]
    simp only [CanonLine.body]
    rw [naiveLine.eq_def]
    simp only [hstrip, hsplit, parseU16_decRender x hx, parseU16_decRender y hy,
      CanonLine.denote]
  | setPixelRgb x y c =>
    obtain ⟨hx, hy, hc⟩ := hwf
    have hstrip : stripTrailingCR (decRender x ++ 32 ::
        (decRender y ++ 32 :: hexRender 6 c)) =
        decRender x ++ 32 :: (decRender y ++ 32 :: hexRender 6 c) := by
      apply stripTrailingCR_eq_of_ne
      rw [getLast_sep _ _ (by simp), getLast_sep _ _ (by
        intro hcc
        have := hexRender_length 6 c
        rw [hcc] at this
        simp at this)]
      exact getLast_hexRender_ne 6 c (by omega)
    have hsplit : splitOnByte 32 (decRender x ++ 32 ::
        (decRender y ++ 32 :: hexRender 6 c)) =
        [decRender x, decRender y, hexRender 6 c] := by
      rw [splitOnByte_append _ (decRender_not_mem_32 x),
        splitOnByte_append _ (decRender_not_mem_32 y),
        splitOnByte_not_mem (hexRender_not_mem_32 6 c)]
    simp only [CanonLine.body]
    rw [naiveLine.eq_def]
    simp only [hstrip, hsplit, hexRender_length, reduceIte,
      parseHexU32_hexRender 6 c (by omega) (by omega) hc,
      parseU16_decRender x hx, parseU16_decRender y hy, Except.map,
      CanonLine.denote]
  | setPixelBw x y w =>
    obtain ⟨hx, hy, hw⟩ := hwf
    have hstrip : stripTrailingCR (decRender x ++ 32 ::
        (decRender y ++ 32 :: hexRender 2 w)) =
        decRender x ++ 32 :: (decRender y ++ 32 :: hexRender 2 w) := by
      apply stripTrailingCR_eq_of_ne
      rw [getLast_sep _ _ (by simp), getLast_sep _ _ (by
        intro hcc
        have := hexRender_length 2 w
        rw [hcc] at this
        simp at this)]
      exact getLast_hexRender_ne 2 w (by omega)
    have hsplit : splitOnByte 32 (decRender x ++ 32 ::
        (decRender y ++ 32 :: hexRender 2 w)) =
        [decRender x, decRender y, hexRender 2 w] := by
      rw [splitOnByte_append _ (decRender_not_mem_32 x),
        splitOnByte_append _ (decRender_not_mem_32 y),
        splitOnByte_not_mem (hexRender_not_mem_32 2 w)]
    simp only [CanonLine.body]
    rw [naiveLine.eq_def]
    simp only [hstrip, hsplit, hexRender_length, reduceIte,
      parseHexU32_hexRender 2 w (by omega) (by omega) hw,
      parseU16_decRender x hx, parseU16_decRender y hy, Except.map,
      CanonLine.denote]
    norm_num

/-- NaiveParser::feed on a concatenation of canonical lines. -/
theorem naiveFeedPieces_renderLines :
    ∀ (ls : List CanonLine), (∀ l ∈ ls, l.wf) →
      naiveFeedPieces (splitOnByte 10 (renderLines ls)) =
        .ok (ls.map CanonLine.denote) := by
  intro ls
  induction ls with
  | nil => intro _; rfl
  | cons l t ih =>
    intro h
    have hrl : renderLines (l :: t) = l.body ++ 10 :: renderLines t := by
      simp [renderLines, CanonLine.render]
    rw [hrl, splitOnByte_append _ (body_not_mem_10 l)]
    simp only [naiveFeedPieces, naiveLine_body l (h l (List.mem_cons_self l t)),
      ih (fun e he => h e (List.mem_cons_of_mem l he)), List.map_cons]

/-- The stream drain loop on a concatenation of canonical lines. -/
theorem streamFeedAux_renderLines :
    ∀ (ls : List CanonLine) (fuel : Nat) (acc : List Command),
      (∀ l ∈ ls, l.wf) → (renderLines ls).length < fuel →
      streamFeedAux fuel (renderLines ls) acc =
        .ok (acc ++ ls.map CanonLine.denote) := by
  intro ls
  induction ls with
  | nil =>
    intro fuel acc _ hf
    obtain ⟨f, rfl⟩ : ∃ f, fuel = f + 1 := ⟨fuel - 1, by omega⟩
    show streamFeedAux (f + 1) [] acc = _
    simp [streamFeedAux, readNextCommandInner, consumeCompare, PX_VERB]
  | cons l t ih =>
    intro fuel acc h hf
    have hrl : renderLines (l :: t) = l.render ++ renderLines t := by
      simp [renderLines]
    rw [hrl] at hf ⊢
    obtain ⟨f, rfl⟩ : ∃ f, fuel = f + 1 := ⟨fuel - 1, by omega⟩
    have hone := stream_parse_line l (h l (List.mem_cons_self l t)) (renderLines t)
    simp only [streamFeedAux, hone]
    rw [ih f (acc ++ [l.denote]) (fun e he => h e (List.mem_cons_of_mem l he))
      (by
        have hlen : 1 ≤ l.render.length := by
          simp [CanonLine.render]
        rw [List.length_append] at hf
        omega)]
    simp

/-- C4 (corrected): on canonical LF-terminated, CR-free lines with single
separating spaces, u16-range coordinates and 2- or 6-digit colors, the
naive reference parser and the streaming parser recognize the same
commands with identical colors.  (Eight-digit colors are excluded: there
the parsers disagree, see the counterexample.) -/
theorem c4_parsers_agree (ls : List CanonLine) (h : ∀ l ∈ ls, l.wf) :
    naiveFeed (renderLines ls) = .ok (ls.map CanonLine.denote) ∧
    streamFeed (renderLines ls) = .ok (ls.map CanonLine.denote) := by
  constructor
  · exact naiveFeedPieces_renderLines ls h
  · unfold streamFeed
    have := streamFeedAux_renderLines ls ((renderLines ls).length + 1) [] h
      (by omega)
    simpa using this

/-- C4 witness: six canonical lines covering every verb parse identically
through both parsers. -/
theorem c4_parsers_agree_witness :
    naiveFeed (renderLines [CanonLine.getPixel 1 2, CanonLine.setPixelRgb 3 4 255,
      CanonLine.help, CanonLine.size, CanonLine.offset 100 50,
      CanonLine.setPixelBw 7 8 127]) =
      .ok ([CanonLine.getPixel 1 2, CanonLine.setPixelRgb 3 4 255,
        CanonLine.help, CanonLine.size, CanonLine.offset 100 50,
        CanonLine.setPixelBw 7 8 127].map CanonLine.denote) ∧
    streamFeed (renderLines [CanonLine.getPixel 1 2, CanonLine.setPixelRgb 3 4 255,
      CanonLine.help, CanonLine.size, CanonLine.offset 100 50,
      CanonLine.setPixelBw 7 8 127]) =
      .ok ([CanonLine.getPixel 1 2, CanonLine.setPixelRgb 3 4 255,
        CanonLine.help, CanonLine.size, CanonLine.offset 100 50,
        CanonLine.setPixelBw 7 8 127].map CanonLine.denote) :=
  c4_parsers_agree _ (by intro l hl; fin_cases hl <;> exact (by decide))

/-- C4 counterexample: on "PX 0 0 cc1144ee\n" the naive parser reads the
eight digits as aarrggbb (from_argb) while the streaming parser reads them
as rrggbbaa (from_rgba), producing different colors — the parsers do not
agree on 8-digit color arguments. -/
theorem c4_counterexample :
    naiveFeed c4Input = .ok [.setPixel 0 0 (Bgra.fromArgb 0xcc1144ee)] ∧
    streamFeed c4Input = .ok [.setPixel 0 0 (Bgra.fromRgba 0xcc1144ee)] ∧
    Bgra.fromArgb 0xcc1144ee ≠ Bgra.fromRgba 0xcc1144ee :=
  ⟨rfl, rfl, by decide⟩

end Wellenbrecher
